import Mathlib

/-!
# Cisco 2600 GDB client codec

A shallow embedding of `src/debug/client/gdb/cpus/Cisco2600.cpp`:
the register catalog (`getRegisterNames`), the register dump parser
(`parseRegistersString`) and the two-digit run-length decoder
(`RunlengthDecode`).

Conventions of the embedding.

* A `std::string` is a `List Char`; it may hold any character, the NUL
  character included.
* A call either returns or raises a C++ exception (`Outcome`).  The
  bounds-checked accessors `std::string::at` and `std::string::substr`
  raise `std::out_of_range`.
* An in/out reference parameter is modelled by returning its final content
  next to the outcome of the call.
* `unsigned int` values are natural numbers reduced modulo `2 ^ 32` at the
  point of conversion.  String indices are natural numbers: the 32-bit loop
  counter of `RunlengthDecode` is exact for every string shorter than
  `2 ^ 32 - 3` characters.
-/

namespace Cisco2600

/-! ## C and C++ library facts used by the source -/

/-- C++ exceptions raised by the library calls of the source. -/
inductive CppException
  | out_of_range
  deriving DecidableEq, Repr

/-- How a call ends: with a return value or with an exception. -/
inductive Outcome (α : Type)
  | returned (a : α)
  | thrown (e : CppException)
  deriving DecidableEq, Repr

/-- The terminating character of a C string. -/
def NUL : Char := Char.ofNat 0

/-- The run marker of the encoding. -/
def MARKER : Char := '*'

/-- The content of a character buffer read as a C string: everything before
the first NUL.  Used for `to_repeat`, `to_conv` and `c_str()` arguments. -/
def c_str (s : List Char) : List Char :=
  s.takeWhile (fun c => c != NUL)

/-- Bounds-checked access `std::string::at`. -/
def stringAt (s : List Char) (i : Nat) : Except CppException Char :=
  match s[i]? with
  | some c => .ok c
  | none => .error .out_of_range

/-- The call `std::string::substr(pos, n)`: raises `out_of_range` when `pos`
is beyond the end, otherwise yields at most `n` characters from `pos`. -/
def substr (s : List Char) (pos n : Nat) : Except CppException (List Char) :=
  if pos > s.length then .error .out_of_range
  else .ok ((s.drop pos).take n)

/-- The C library `isspace` in the "C" locale. -/
def isspace (c : Char) : Bool :=
  c = ' ' || c = '\t' || c = '\n' || c = Char.ofNat 11 || c = Char.ofNat 12 || c = '\r'

/-- Value of a character as a base-16 digit, if it is one. -/
def hexDigitValue (c : Char) : Option Nat :=
  let n := c.toNat
  if 48 ≤ n ∧ n ≤ 57 then some (n - 48)
  else if 97 ≤ n ∧ n ≤ 102 then some (n - 87)
  else if 65 ≤ n ∧ n ≤ 70 then some (n - 55)
  else none

/-- Accumulates the longest run of base-16 digits at the head of the text. -/
def accumHex : List Char → Nat → Nat
  | [], acc => acc
  | c :: cs, acc =>
    match hexDigitValue c with
    | some d => accumHex cs (acc * 16 + d)
    | none => acc

/-- The optional sign of a `strtoul` subject: whether it is negative, and the
text after the sign. -/
def takeSign : List Char → Bool × List Char
  | c :: cs => if c = '-' then (true, cs) else if c = '+' then (false, cs) else (false, c :: cs)
  | [] => (false, [])

/-- Skips the optional `0x` or `0X` that base 16 admits. -/
def skipHexMark : List Char → List Char
  | c0 :: c1 :: cs => if c0 = '0' ∧ (c1 = 'x' ∨ c1 = 'X') then cs else c0 :: c1 :: cs
  | s => s

/-- Largest `unsigned long` (64 bits). -/
def ULONG_MAX : Nat := 2 ^ 64 - 1

/-- The C library call `strtoul(nptr, NULL, 16)` on a C string: leading white
space, an optional sign, an optional `0x`, then the longest run of hex
digits; no digits give 0; a value beyond `ULONG_MAX` is clamped; a minus
sign negates in `unsigned long`. -/
def strtoul (nptr : List Char) : Nat :=
  let signed := takeSign (nptr.dropWhile isspace)
  let v := accumHex (skipHexMark signed.2) 0
  if v > ULONG_MAX then ULONG_MAX
  else if signed.1 then (2 ^ 64 - v) % 2 ^ 64
  else v

/-- Conversion of an `unsigned long` to `unsigned int`. -/
def toUnsignedInt (n : Nat) : Nat := n % 2 ^ 32

/-! ## RunlengthDecode -/

/-- The inner loop `for (j = 0; j < repeat; j++) expanded.append(to_repeat)`. -/
def appendTimes : Nat → List Char → List Char → List Char
  | 0, _, expanded => expanded
  | n + 1, to_repeat, expanded => appendTimes n to_repeat (expanded ++ to_repeat)

/-- The variables the scanning loop of `RunlengthDecode` changes: the index
`i` and the local string `expanded`. -/
structure LoopState where
  i : Nat
  expanded : List Char
  deriving DecidableEq, Repr

/-- How one execution of the loop body ends. -/
inductive BodyResult
  | next (st : LoopState)
  | returnFalse
  | thrown (e : CppException)
  deriving DecidableEq, Repr

/-- The value of `repeat`: the buffer `to_conv` holding the two characters
after the marker, converted by `strtoul` and stored in an `unsigned int`. -/
def repeatCount (c0 c1 : Char) : Nat :=
  toUnsignedInt (strtoul (c_str [c0, c1]))

/-- One execution of the body of the scanning loop, followed by the `i++` of
the `for` statement.  `encoded.length() - 2` is only evaluated when
`0 < i < encoded.length()`, where the subtraction does not wrap. -/
def loopBody (encoded : List Char) (st : LoopState) : BodyResult :=
  match stringAt encoded st.i with
  | .error e => .thrown e
  | .ok c =>
    if c = MARKER then
      if 0 = st.i then .returnFalse
      else if encoded.length - 2 = st.i then .returnFalse
      else
        match stringAt encoded (st.i - 1) with
        | .error e => .thrown e
        | .ok r =>
          match stringAt encoded (st.i + 1) with
          | .error e => .thrown e
          | .ok c0 =>
            match stringAt encoded (st.i + 2) with
            | .error e => .thrown e
            | .ok c1 =>
              if 0 = repeatCount c0 c1 then .returnFalse
              else .next ⟨st.i + 2 + 1, appendTimes (repeatCount c0 c1) (c_str [r]) st.expanded⟩
    else .next ⟨st.i + 1, st.expanded ++ c_str [c]⟩

/-- How the scanning loop ends. -/
inductive LoopResult
  | finished (expanded : List Char)
  | returnFalse
  | thrown (e : CppException)
  deriving DecidableEq, Repr

/-- The loop `for (i = 0; i < encoded.length(); i++)` from a given state. -/
def scanLoop (encoded : List Char) (st : LoopState) : LoopResult :=
  if hlt : st.i < encoded.length then
    match h : loopBody encoded st with
    | .next st' => scanLoop encoded st'
    | .returnFalse => .returnFalse
    | .thrown e => .thrown e
  else .finished st.expanded
termination_by encoded.length - st.i
decreasing_by
  have hi : st.i < st'.i := by
    unfold loopBody at h
    repeat' split at h
    all_goals cases h
    all_goals (dsimp only; omega)
  omega

/-- `Cisco2600::RunlengthDecode(std::string& encoded)`: the outcome of the
call and the content of `encoded` after it. -/
def RunlengthDecode (encoded : List Char) : Outcome Bool × List Char :=
  match scanLoop encoded ⟨0, []⟩ with
  | .finished expanded => (.returned true, [] ++ expanded)
  | .returnFalse => (.returned false, encoded)
  | .thrown e => (.thrown e, encoded)

/-- The loop state at the start of the `k`-th iteration, when the scan gets
that far. -/
def stateAfter (encoded : List Char) : Nat → Option LoopState
  | 0 => some ⟨0, []⟩
  | k + 1 =>
    match stateAfter encoded k with
    | none => none
    | some st =>
      if st.i < encoded.length then
        match loopBody encoded st with
        | .next st' => some st'
        | _ => none
      else none

/-! ## Register descriptions and values -/

/-- Modelled from the spec: the error code type `NaviError` of `defs.hpp`,
with the two codes of `NaviErrors` that the source file names. -/
inductive NaviError
  | SUCCESS
  | COULDNT_DETACH
  deriving DecidableEq, Repr

/-- Modelled from the spec: the `RegisterDescription` record of `defs.hpp`,
a name, a width in bytes and a formatting flag. -/
structure RegisterDescription where
  name : String
  size : Nat
  flag : Bool
  deriving DecidableEq, Repr

/-- Modelled from the spec: the `RegisterValue` record of `defs.hpp`, a name,
the value as text, and the instruction-pointer and stack-pointer flags. -/
structure RegisterValue where
  name : String
  value : List Char
  isPc : Bool
  isSp : Bool
  deriving DecidableEq, Repr

/-- Modelled from the spec: the helper `makeRegisterDescription` of
`defs.hpp`, which fills a `RegisterDescription`. -/
def makeRegisterDescription (name : String) (size : Nat) (flag : Bool) :
    RegisterDescription :=
  ⟨name, size, flag⟩

/-- Modelled from the spec: the helper `makeRegisterValue` of `defs.hpp`,
whose two flag arguments default to `false` when the source leaves them out. -/
def makeRegisterValue (name : String) (value : List Char) (isPc isSp : Bool) :
    RegisterValue :=
  ⟨name, value, isPc, isSp⟩

/-- Modelled from the spec: `zylib::zycon::toString` of `zycon.h` on an
unsigned integer, its decimal rendering. -/
def zyconToString (n : Nat) : String :=
  String.mk (Nat.toDigits 10 n)

/-- Modelled from the spec: `zylib::zycon::toHexString` of `zycon.h` on an
unsigned integer, its base-16 rendering without padding. -/
def toHexString (n : Nat) : List Char :=
  Nat.toDigits 16 n

/-! ## getRegisterNames -/

/-- `Cisco2600::getAddressSize`. -/
def getAddressSize : Nat := 32

/-- `Cisco2600::getInstructionPointerIndex`. -/
def getInstructionPointerIndex : Nat := 33

/-- `Cisco2600::getRegisterNames`: the catalog, in the order of the
`push_back` calls. -/
def getRegisterNames : List RegisterDescription :=
  [makeRegisterDescription "??" 4 true] ++
  (List.range 32).map (fun i =>
    if i = 1 then makeRegisterDescription "sp" 4 true
    else makeRegisterDescription ("r" ++ zyconToString i) 4 true) ++
  [ makeRegisterDescription "pc" 4 true,
    makeRegisterDescription "msr" 4 true,
    makeRegisterDescription "lr" 4 true,
    makeRegisterDescription "ctr" 4 true ] ++
  (List.range' 39 23).map (fun i =>
    makeRegisterDescription ("u_reg" ++ zyconToString i) 4 true) ++
  [ makeRegisterDescription "cr" 4 true,
    makeRegisterDescription "cr0" 4 true,
    makeRegisterDescription "cr1" 4 true,
    makeRegisterDescription "cr2" 4 true,
    makeRegisterDescription "cr3" 4 true,
    makeRegisterDescription "cr4" 4 true,
    makeRegisterDescription "cr5" 4 true,
    makeRegisterDescription "cr6" 4 true,
    makeRegisterDescription "cr7" 4 true,
    makeRegisterDescription "xer" 4 true,
    makeRegisterDescription "fpscr" 4 true,
    makeRegisterDescription "xer_so" 0 true,
    makeRegisterDescription "xer_ov" 0 true,
    makeRegisterDescription "xer_ca" 0 true,
    makeRegisterDescription "xer_bytecount" 2 true,
    makeRegisterDescription "cr0_LT" 0 true,
    makeRegisterDescription "cr0_GT" 0 true,
    makeRegisterDescription "cr0_EQ" 0 true,
    makeRegisterDescription "cr0_SO" 0 true,
    makeRegisterDescription "cr1_LT" 0 true,
    makeRegisterDescription "cr1_GT" 0 true,
    makeRegisterDescription "cr1_EQ" 0 true,
    makeRegisterDescription "cr1_SO" 0 true,
    makeRegisterDescription "cr2_LT" 0 true,
    makeRegisterDescription "cr2_GT" 0 true,
    makeRegisterDescription "cr2_EQ" 0 true,
    makeRegisterDescription "cr2_SO" 0 true,
    makeRegisterDescription "cr3_LT" 0 true,
    makeRegisterDescription "cr3_GT" 0 true,
    makeRegisterDescription "cr3_EQ" 0 true,
    makeRegisterDescription "cr3_SO" 0 true,
    makeRegisterDescription "cr4_LT" 0 true,
    makeRegisterDescription "cr4_GT" 0 true,
    makeRegisterDescription "cr4_EQ" 0 true,
    makeRegisterDescription "cr4_SO" 0 true,
    makeRegisterDescription "cr5_LT" 0 true,
    makeRegisterDescription "cr5_GT" 0 true,
    makeRegisterDescription "cr5_EQ" 0 true,
    makeRegisterDescription "cr5_SO" 0 true,
    makeRegisterDescription "cr6_LT" 0 true,
    makeRegisterDescription "cr6_GT" 0 true,
    makeRegisterDescription "cr6_EQ" 0 true,
    makeRegisterDescription "cr6_SO" 0 true,
    makeRegisterDescription "cr7_LT" 0 true,
    makeRegisterDescription "cr7_GT" 0 true,
    makeRegisterDescription "cr7_EQ" 0 true,
    makeRegisterDescription "cr7_SO" 0 true,
    makeRegisterDescription "fpscr_FX" 0 true,
    makeRegisterDescription "fpscr_FEX" 0 true,
    makeRegisterDescription "fpscr_VX" 0 true,
    makeRegisterDescription "fpscr_QX" 0 true,
    makeRegisterDescription "fpscr_UX" 0 true,
    makeRegisterDescription "fpscr_ZX" 0 true,
    makeRegisterDescription "fpscr_XX" 0 true,
    makeRegisterDescription "fpscr_VXNAN" 0 true,
    makeRegisterDescription "fpscr_VXISI" 0 true,
    makeRegisterDescription "fpscr_VXIDI" 0 true,
    makeRegisterDescription "fpscr_VXZDZ" 0 true,
    makeRegisterDescription "fpscr_VXIMZ" 0 true,
    makeRegisterDescription "fpscr_VXVC" 0 true,
    makeRegisterDescription "fpscr_FR" 0 true,
    makeRegisterDescription "fpscr_FI" 0 true,
    makeRegisterDescription "fpscr_FPRF" 1 true,
    makeRegisterDescription "fpscr_VXSOFT" 0 true,
    makeRegisterDescription "fpscr_VXSQRT" 0 true,
    makeRegisterDescription "fpscr_VXCVI" 0 true,
    makeRegisterDescription "fpscr_VE" 0 true,
    makeRegisterDescription "fpscr_OE" 0 true,
    makeRegisterDescription "fpscr_UE" 0 true,
    makeRegisterDescription "fpscr_ZE" 0 true,
    makeRegisterDescription "fpscr_XE" 0 true,
    makeRegisterDescription "fpscr_NI" 0 true,
    makeRegisterDescription "fpscr_RN" 1 true ]

/-! ## parseRegistersString -/

/-- One statement of lines 191 to 219 of the source:
`registers.push_back(makeRegisterValue(name, regString.substr(pos, 8), isPc, isSp))`. -/
structure SliceStmt where
  name : String
  pos : Nat
  isPc : Bool
  isSp : Bool
  deriving DecidableEq, Repr

/-- The slicing statements of `parseRegistersString` in program order, the
two `for` loops unrolled. -/
def sliceStatements : List SliceStmt :=
  [⟨"??", 0, false, false⟩] ++
  (List.range 32).map (fun i =>
    if i = 1 then ⟨"sp", i * 8 + 8, false, true⟩
    else ⟨"r" ++ zyconToString i, i * 8 + 8, false, false⟩) ++
  [ ⟨"pc", 33 * 8, true, false⟩,
    ⟨"msr", 34 * 8, false, false⟩,
    ⟨"cr", 35 * 8, false, false⟩,
    ⟨"lr", 36 * 8, false, false⟩,
    ⟨"ctr", 37 * 8, false, false⟩,
    ⟨"xer", 38 * 8, false, false⟩,
    ⟨"fpscr", 39 * 8, false, false⟩ ] ++
  (List.range' 39 23).map (fun i => ⟨"u_reg" ++ zyconToString i, i * 8, false, false⟩)

/-- Runs slicing statements in order on the vector `registers`.  A `substr`
that raises ends the run; the values pushed before it stay in the vector. -/
def pushSlices (regString : List Char) :
    List SliceStmt → List RegisterValue → Option CppException × List RegisterValue
  | [], registers => (none, registers)
  | st :: rest, registers =>
    match substr regString st.pos 8 with
    | .error e => (some e, registers)
    | .ok v =>
      pushSlices regString rest (registers ++ [makeRegisterValue st.name v st.isPc st.isSp])

/-- The values pushed for the XER flags and fields (lines 224 to 232). -/
def xerFields (xer : Nat) : List RegisterValue :=
  [
    makeRegisterValue "xer_so" (toHexString (xer &&& 1)) false false,
    makeRegisterValue "xer_ov" (toHexString ((xer >>> 1) &&& 1)) false false,
    makeRegisterValue "xer_ca" (toHexString ((xer >>> 2) &&& 1)) false false,
    makeRegisterValue "xer_bytecount" (toHexString ((xer >>> 24) &&& 0x3F)) false false
  ]

/-- The values pushed for the condition register groups and flags (lines 236
to 326). -/
def crFields (cr : Nat) : List RegisterValue :=
  let cr0 := cr &&& 0xF
  let cr1 := (cr >>> 4) &&& 0xF
  let cr2 := (cr >>> 8) &&& 0xF
  let cr3 := (cr >>> 12) &&& 0xF
  let cr4 := (cr >>> 16) &&& 0xF
  let cr5 := (cr >>> 20) &&& 0xF
  let cr6 := (cr >>> 24) &&& 0xF
  let cr7 := (cr >>> 28) &&& 0xF
  [
    makeRegisterValue "cr0" (toHexString (cr0)) false false,
    makeRegisterValue "cr1" (toHexString (cr1)) false false,
    makeRegisterValue "cr2" (toHexString (cr2)) false false,
    makeRegisterValue "cr3" (toHexString (cr3)) false false,
    makeRegisterValue "cr4" (toHexString (cr4)) false false,
    makeRegisterValue "cr5" (toHexString (cr5)) false false,
    makeRegisterValue "cr6" (toHexString (cr6)) false false,
    makeRegisterValue "cr7" (toHexString (cr7)) false false,
    makeRegisterValue "cr0_LT" (toHexString (cr0 &&& 1)) false false,
    makeRegisterValue "cr0_GT" (toHexString ((cr0 >>> 1) &&& 1)) false false,
    makeRegisterValue "cr0_EQ" (toHexString ((cr0 >>> 2) &&& 1)) false false,
    makeRegisterValue "cr0_SO" (toHexString ((cr0 >>> 3) &&& 1)) false false,
    makeRegisterValue "cr1_LT" (toHexString (cr1 &&& 1)) false false,
    makeRegisterValue "cr1_GT" (toHexString ((cr1 >>> 1) &&& 1)) false false,
    makeRegisterValue "cr1_EQ" (toHexString ((cr1 >>> 2) &&& 1)) false false,
    makeRegisterValue "cr1_SO" (toHexString ((cr1 >>> 3) &&& 1)) false false,
    makeRegisterValue "cr2_LT" (toHexString (cr2 &&& 1)) false false,
    makeRegisterValue "cr2_GT" (toHexString ((cr2 >>> 1) &&& 1)) false false,
    makeRegisterValue "cr2_EQ" (toHexString ((cr2 >>> 2) &&& 1)) false false,
    makeRegisterValue "cr2_SO" (toHexString ((cr2 >>> 3) &&& 1)) false false,
    makeRegisterValue "cr3_LT" (toHexString (cr3 &&& 1)) false false,
    makeRegisterValue "cr3_GT" (toHexString ((cr3 >>> 1) &&& 1)) false false,
    makeRegisterValue "cr3_EQ" (toHexString ((cr3 >>> 2) &&& 1)) false false,
    makeRegisterValue "cr3_SO" (toHexString ((cr3 >>> 3) &&& 1)) false false,
    makeRegisterValue "cr4_LT" (toHexString (cr4 &&& 1)) false false,
    makeRegisterValue "cr4_GT" (toHexString ((cr4 >>> 1) &&& 1)) false false,
    makeRegisterValue "cr4_EQ" (toHexString ((cr4 >>> 2) &&& 1)) false false,
    makeRegisterValue "cr4_SO" (toHexString ((cr4 >>> 3) &&& 1)) false false,
    makeRegisterValue "cr5_LT" (toHexString (cr5 &&& 1)) false false,
    makeRegisterValue "cr5_GT" (toHexString ((cr5 >>> 1) &&& 1)) false false,
    makeRegisterValue "cr5_EQ" (toHexString ((cr5 >>> 2) &&& 1)) false false,
    makeRegisterValue "cr5_SO" (toHexString ((cr5 >>> 3) &&& 1)) false false,
    makeRegisterValue "cr6_LT" (toHexString (cr6 &&& 1)) false false,
    makeRegisterValue "cr6_GT" (toHexString ((cr6 >>> 1) &&& 1)) false false,
    makeRegisterValue "cr6_EQ" (toHexString ((cr6 >>> 2) &&& 1)) false false,
    makeRegisterValue "cr6_SO" (toHexString ((cr6 >>> 3) &&& 1)) false false,
    makeRegisterValue "cr7_LT" (toHexString (cr7 &&& 1)) false false,
    makeRegisterValue "cr7_GT" (toHexString ((cr7 >>> 1) &&& 1)) false false,
    makeRegisterValue "cr7_EQ" (toHexString ((cr7 >>> 2) &&& 1)) false false,
    makeRegisterValue "cr7_SO" (toHexString ((cr7 >>> 3) &&& 1)) false false
  ]

/-- The values pushed for the floating point status flags (lines 331 to
407). -/
def fpscrFields (fpscr : Nat) : List RegisterValue :=
  [
    makeRegisterValue "fpscr_FX" (toHexString (fpscr &&& 1)) false false,
    makeRegisterValue "fpscr_FEX" (toHexString ((fpscr >>> 1) &&& 1)) false false,
    makeRegisterValue "fpscr_VX" (toHexString ((fpscr >>> 2) &&& 1)) false false,
    makeRegisterValue "fpscr_QX" (toHexString ((fpscr >>> 3) &&& 1)) false false,
    makeRegisterValue "fpscr_UX" (toHexString ((fpscr >>> 4) &&& 1)) false false,
    makeRegisterValue "fpscr_ZX" (toHexString ((fpscr >>> 5) &&& 1)) false false,
    makeRegisterValue "fpscr_XX" (toHexString ((fpscr >>> 6) &&& 1)) false false,
    makeRegisterValue "fpscr_VXNAN" (toHexString ((fpscr >>> 7) &&& 1)) false false,
    makeRegisterValue "fpscr_VXISI" (toHexString ((fpscr >>> 8) &&& 1)) false false,
    makeRegisterValue "fpscr_VXIDI" (toHexString ((fpscr >>> 9) &&& 1)) false false,
    makeRegisterValue "fpscr_VXZDZ" (toHexString ((fpscr >>> 10) &&& 1)) false false,
    makeRegisterValue "fpscr_VXIMZ" (toHexString ((fpscr >>> 11) &&& 1)) false false,
    makeRegisterValue "fpscr_VXVC" (toHexString ((fpscr >>> 12) &&& 1)) false false,
    makeRegisterValue "fpscr_FR" (toHexString ((fpscr >>> 13) &&& 1)) false false,
    makeRegisterValue "fpscr_FI" (toHexString ((fpscr >>> 14) &&& 1)) false false,
    makeRegisterValue "fpscr_FPRF" (toHexString ((fpscr >>> 15) &&& 0x1F)) false false,
    makeRegisterValue "fpscr_VXSOFT" (toHexString ((fpscr >>> 21) &&& 1)) false false,
    makeRegisterValue "fpscr_VXSQRT" (toHexString ((fpscr >>> 22) &&& 1)) false false,
    makeRegisterValue "fpscr_VXCVI" (toHexString ((fpscr >>> 23) &&& 1)) false false,
    makeRegisterValue "fpscr_VE" (toHexString ((fpscr >>> 24) &&& 1)) false false,
    makeRegisterValue "fpscr_OE" (toHexString ((fpscr >>> 25) &&& 1)) false false,
    makeRegisterValue "fpscr_UE" (toHexString ((fpscr >>> 26) &&& 1)) false false,
    makeRegisterValue "fpscr_ZE" (toHexString ((fpscr >>> 27) &&& 1)) false false,
    makeRegisterValue "fpscr_XE" (toHexString ((fpscr >>> 28) &&& 1)) false false,
    makeRegisterValue "fpscr_NI" (toHexString ((fpscr >>> 29) &&& 1)) false false,
    makeRegisterValue "fpscr_RN" (toHexString ((fpscr >>> 30) &&& 3)) false false
  ]

/-- The conversion `strtoul(regString.substr(pos, 8).c_str(), 0, 16)` stored
in an `unsigned int`. -/
def slotValue (text : List Char) : Nat :=
  toUnsignedInt (strtoul (c_str text))

/-- `Cisco2600::parseRegistersString(registers, regString)`: the outcome of
the call and the content of the vector `registers` after it. -/
def parseRegistersString (registers : List RegisterValue) (regString : List Char) :
    Outcome NaviError × List RegisterValue :=
  match pushSlices regString sliceStatements registers with
  | (some e, registers) => (.thrown e, registers)
  | (none, registers) =>
    match substr regString (38 * 8) 8 with
    | .error e => (.thrown e, registers)
    | .ok xerText =>
      match substr regString (35 * 8) 8 with
      | .error e => (.thrown e, registers ++ xerFields (slotValue xerText))
      | .ok crText =>
        match substr regString (39 * 8) 8 with
        | .error e =>
          (.thrown e, registers ++ xerFields (slotValue xerText) ++ crFields (slotValue crText))
        | .ok fpscrText =>
          (.returned .SUCCESS,
            registers ++ xerFields (slotValue xerText) ++ crFields (slotValue crText) ++
              fpscrFields (slotValue fpscrText))

/-- The value text of the first entry of a register vector with the given
name. -/
def valueOf (name : String) (registers : List RegisterValue) : Option (List Char) :=
  (registers.find? (fun r => r.name = name)).map (fun r => r.value)

/-! ## Vocabulary of the statements -/

/-- A text made of base-16 digits only. -/
def IsHexText (ds : List Char) : Prop :=
  ∀ c ∈ ds, (hexDigitValue c).isSome = true

instance (ds : List Char) : Decidable (IsHexText ds) := by
  unfold IsHexText
  infer_instance

/-- The number a text of base-16 digits denotes, most significant digit
first. -/
def hexValue (ds : List Char) : Nat :=
  ds.foldl (fun acc c => acc * 16 + (hexDigitValue c).getD 0) 0

/-- The characters of a text from position `pos`, at most `n` of them. -/
def sliceAt (s : List Char) (pos n : Nat) : List Char :=
  (s.drop pos).take n

/-- The names of a register vector, in order. -/
def valueNames (registers : List RegisterValue) : List String :=
  registers.map (fun r => r.name)

/-- The values `parseRegistersString` slices out of a text when no `substr`
raises, in program order. -/
def slicedValues (regString : List Char) : List RegisterValue :=
  sliceStatements.map (fun st =>
    makeRegisterValue st.name (sliceAt regString st.pos 8) st.isPc st.isSp)

/-- Byte offset that the catalog order assigns to the descriptor at index
`i`: the sum of the sizes of the descriptors before it. -/
def catalogOffset (i : Nat) : Nat :=
  ((getRegisterNames.take i).map (fun d => d.size)).sum

/-- The number `n` written with 8 hex digits, padded with zeros on the left. -/
def hex8 (n : Nat) : List Char :=
  List.replicate (8 - (toHexString n).length) '0' ++ toHexString n

/-- The synthetic flat dump in which the raw value of slot `i` is the
hex encoding of `i`, for `count` slots. -/
def syntheticDump (count : Nat) : List Char :=
  ((List.range count).map hex8).flatten

/-- Name of condition register group `N`. -/
def crGroupName (N : Nat) : String :=
  "cr" ++ zyconToString N

/-- Suffix of the flag at bit `k` of a condition register group: `LT`, `GT`,
`EQ`, `SO` for bits 0, 1, 2, 3. -/
def crFlagSuffix : Nat → String
  | 0 => "_LT"
  | 1 => "_GT"
  | 2 => "_EQ"
  | _ => "_SO"

/-- The names pushed for the condition register groups and flags. -/
def crSubfields : List String :=
  (List.range 8).map crGroupName ++
  ((List.range 8).map (fun N => (List.range 4).map (fun k => crGroupName N ++ crFlagSuffix k))).flatten

/-- The names pushed for the XER flags and fields. -/
def xerSubfields : List String :=
  ["xer_so", "xer_ov", "xer_ca", "xer_bytecount"]

/-- The names pushed for the floating point status flags and fields. -/
def fpscrSubfields : List String :=
  ["fpscr_FX", "fpscr_FEX", "fpscr_VX", "fpscr_QX", "fpscr_UX", "fpscr_ZX", "fpscr_XX",
   "fpscr_VXNAN", "fpscr_VXISI", "fpscr_VXIDI", "fpscr_VXZDZ", "fpscr_VXIMZ", "fpscr_VXVC",
   "fpscr_FR", "fpscr_FI", "fpscr_FPRF", "fpscr_VXSOFT", "fpscr_VXSQRT", "fpscr_VXCVI",
   "fpscr_VE", "fpscr_OE", "fpscr_UE", "fpscr_ZE", "fpscr_XE", "fpscr_NI", "fpscr_RN"]

/-- The bit ranges of the XER sub-fields: name, position of the lowest bit
(bit 0 is the least significant), and width in bits. -/
def xerLayout : List (String × Nat × Nat) :=
  [("xer_so", 0, 1), ("xer_ov", 1, 1), ("xer_ca", 2, 1), ("xer_bytecount", 24, 6)]

/-- The bit ranges of the FPSCR sub-fields: name, position of the lowest bit,
and width in bits. -/
def fpscrLayout : List (String × Nat × Nat) :=
  [("fpscr_FX", 0, 1), ("fpscr_FEX", 1, 1), ("fpscr_VX", 2, 1),
   ("fpscr_QX", 3, 1), ("fpscr_UX", 4, 1), ("fpscr_ZX", 5, 1),
   ("fpscr_XX", 6, 1), ("fpscr_VXNAN", 7, 1), ("fpscr_VXISI", 8, 1),
   ("fpscr_VXIDI", 9, 1), ("fpscr_VXZDZ", 10, 1), ("fpscr_VXIMZ", 11, 1),
   ("fpscr_VXVC", 12, 1), ("fpscr_FR", 13, 1), ("fpscr_FI", 14, 1),
   ("fpscr_FPRF", 15, 5), ("fpscr_VXSOFT", 21, 1), ("fpscr_VXSQRT", 22, 1),
   ("fpscr_VXCVI", 23, 1), ("fpscr_VE", 24, 1), ("fpscr_OE", 25, 1),
   ("fpscr_UE", 26, 1), ("fpscr_ZE", 27, 1), ("fpscr_XE", 28, 1),
   ("fpscr_NI", 29, 1), ("fpscr_RN", 30, 2)]

/-- How many of the given names have, in a register vector, a value other
than the rendering of zero. -/
def nonZeroCount (names : List String) (registers : List RegisterValue) : Nat :=
  names.countP (fun n => valueOf n registers != some (toHexString 0))

/-- A flat dump of 62 slots that are all zero except the XER slot and the
FPSCR slot, which both hold `00000001`. -/
def statusDump : List Char :=
  List.replicate 304 '0' ++ ['0', '0', '0', '0', '0', '0', '0', '1'] ++
    ['0', '0', '0', '0', '0', '0', '0', '1'] ++ List.replicate 176 '0'

/-- A flat dump of 62 slots that are all zero except the condition register
slot, which holds `00000008`. -/
def crDump : List Char :=
  List.replicate 280 '0' ++ ['0', '0', '0', '0', '0', '0', '0', '8'] ++ List.replicate 208 '0'

/-- The names of the catalog, in order. -/
def catalogNames : List String :=
  getRegisterNames.map (fun d => d.name)

/-- The names of the sliced values, in program order. -/
def slicedNames : List String :=
  sliceStatements.map (fun st => st.name)

/-- The names of the values computed by shift and mask, in program order. -/
def derivedNames : List String :=
  xerSubfields ++ crSubfields ++ fpscrSubfields

/-- The names of the values `parseRegistersString` appends on a run that
returns, in program order. -/
def parsedNames : List String :=
  slicedNames ++ derivedNames

/-- Name of general-purpose register `k`: `sp` for register 1, `r<k>`
otherwise. -/
def gprName (k : Nat) : String :=
  if k = 1 then "sp" else "r" ++ zyconToString k

/-- The number that the value text of the entry with the given name denotes
in base 16, when the vector has such an entry. -/
def numberOf (name : String) (registers : List RegisterValue) : Option Nat :=
  (valueOf name registers).map hexValue

/-! ## Facts about the library model -/

theorem hexDigitValue_le (c : Char) (d : Nat) (h : hexDigitValue c = some d) : d ≤ 15 := by
  unfold hexDigitValue at h
  simp only at h
  split at h
  · cases h; omega
  · split at h
    · cases h; omega
    · split at h
      · cases h; omega
      · cases h

theorem hexDigit_ne_of_none (c k : Char) (hk : hexDigitValue k = none)
    (h : (hexDigitValue c).isSome = true) : c ≠ k := by
  rintro rfl
  rw [hk] at h
  cases h

theorem hexDigit_ne_NUL (c : Char) (h : (hexDigitValue c).isSome = true) : c ≠ NUL :=
  hexDigit_ne_of_none c NUL (by decide) h

theorem hexDigit_ne_MARKER (c : Char) (h : (hexDigitValue c).isSome = true) : c ≠ MARKER :=
  hexDigit_ne_of_none c MARKER (by decide) h

theorem hexDigit_not_space (c : Char) (h : (hexDigitValue c).isSome = true) :
    isspace c = false := by
  have h1 := hexDigit_ne_of_none c ' ' (by decide) h
  have h2 := hexDigit_ne_of_none c '\t' (by decide) h
  have h3 := hexDigit_ne_of_none c '\n' (by decide) h
  have h4 := hexDigit_ne_of_none c (Char.ofNat 11) (by decide) h
  have h5 := hexDigit_ne_of_none c (Char.ofNat 12) (by decide) h
  have h6 := hexDigit_ne_of_none c '\r' (by decide) h
  simp [isspace, h1, h2, h3, h4, h5, h6]

theorem c_str_hexText (ds : List Char) (h : IsHexText ds) : c_str ds = ds := by
  unfold c_str
  rw [List.takeWhile_eq_self_iff]
  intro c hc
  simpa using hexDigit_ne_NUL c (h c hc)

theorem dropWhile_isspace_hexText (ds : List Char) (h : IsHexText ds) :
    ds.dropWhile isspace = ds := by
  cases ds with
  | nil => rfl
  | cons c cs =>
    rw [List.dropWhile_cons, hexDigit_not_space c (h c (by simp))]
    simp

theorem takeSign_hexText (ds : List Char) (h : IsHexText ds) : takeSign ds = (false, ds) := by
  cases ds with
  | nil => rfl
  | cons c cs =>
    have h1 := hexDigit_ne_of_none c '-' (by decide) (h c (by simp))
    have h2 := hexDigit_ne_of_none c '+' (by decide) (h c (by simp))
    simp [takeSign, h1, h2]

theorem skipHexMark_hexText (ds : List Char) (h : IsHexText ds) : skipHexMark ds = ds := by
  match ds with
  | [] => rfl
  | [_] => rfl
  | c0 :: c1 :: cs =>
    have h1 := hexDigit_ne_of_none c1 'x' (by decide) (h c1 (by simp))
    have h2 := hexDigit_ne_of_none c1 'X' (by decide) (h c1 (by simp))
    simp [skipHexMark, h1, h2]

theorem accumHex_hexText (ds : List Char) (h : IsHexText ds) (acc : Nat) :
    accumHex ds acc = ds.foldl (fun a c => a * 16 + (hexDigitValue c).getD 0) acc := by
  induction ds generalizing acc with
  | nil => rfl
  | cons c cs ih =>
    have hc := h c (by simp)
    have hcs : IsHexText cs := fun x hx => h x (by simp [hx])
    rw [accumHex]
    cases hd : hexDigitValue c with
    | none => rw [hd] at hc; cases hc
    | some d =>
      simp only [List.foldl_cons, hd, Option.getD_some]
      exact ih hcs _

theorem foldl_hex_lt (ds : List Char) (acc : Nat) :
    ds.foldl (fun a c => a * 16 + (hexDigitValue c).getD 0) acc < (acc + 1) * 16 ^ ds.length := by
  induction ds generalizing acc with
  | nil => simp
  | cons c cs ih =>
    have hd : (hexDigitValue c).getD 0 ≤ 15 := by
      cases hv : hexDigitValue c with
      | none => simp
      | some d => simpa using hexDigitValue_le c d hv
    have := ih (acc * 16 + (hexDigitValue c).getD 0)
    simp only [List.foldl_cons, List.length_cons]
    calc _ < (acc * 16 + (hexDigitValue c).getD 0 + 1) * 16 ^ cs.length := this
      _ ≤ ((acc + 1) * 16) * 16 ^ cs.length := Nat.mul_le_mul_right _ (by omega)
      _ = (acc + 1) * 16 ^ (cs.length + 1) := by rw [Nat.pow_succ]; ring

theorem hexValue_lt (ds : List Char) : hexValue ds < 16 ^ ds.length := by
  simpa [hexValue] using foldl_hex_lt ds 0

theorem strtoul_hexText (ds : List Char) (h : IsHexText ds) (hlen : ds.length ≤ 16) :
    strtoul (c_str ds) = hexValue ds := by
  have hlt := hexValue_lt ds
  have hpow : 16 ^ ds.length ≤ 16 ^ 16 := Nat.pow_le_pow_right (by decide) hlen
  have hv : ¬ hexValue ds > ULONG_MAX := by
    have : (16 : Nat) ^ 16 = ULONG_MAX + 1 := by decide
    omega
  unfold strtoul
  simp only [c_str_hexText ds h, dropWhile_isspace_hexText ds h, takeSign_hexText ds h,
    skipHexMark_hexText ds h, accumHex_hexText ds h]
  unfold hexValue at hv
  simp [hv, hexValue]

theorem slotValue_hexText (ds : List Char) (h : IsHexText ds) (hlen : ds.length ≤ 8) :
    slotValue ds = hexValue ds := by
  have hlt := hexValue_lt ds
  have hpow : 16 ^ ds.length ≤ 16 ^ 8 := Nat.pow_le_pow_right (by decide) hlen
  unfold slotValue toUnsignedInt
  rw [strtoul_hexText ds h (by omega)]
  apply Nat.mod_eq_of_lt
  have : (16 : Nat) ^ 8 = 2 ^ 32 := by decide
  omega

theorem repeatCount_hexDigits (h1 h2 : Char) (d1 d2 : Nat)
    (hd1 : hexDigitValue h1 = some d1) (hd2 : hexDigitValue h2 = some d2) :
    repeatCount h1 h2 = 16 * d1 + d2 := by
  have ht : IsHexText [h1, h2] := by
    intro c hc
    simp only [List.mem_cons, List.mem_singleton, List.not_mem_nil, or_false] at hc
    rcases hc with rfl | rfl
    · simp [hd1]
    · simp [hd2]
  have := slotValue_hexText [h1, h2] ht (by simp)
  unfold slotValue at this
  unfold repeatCount
  rw [this]
  simp [hexValue, hd1, hd2]
  omega


theorem c_str_single (c : Char) (h : c ≠ NUL) : c_str [c] = [c] := by
  simp [c_str, h]

theorem c_str_single_NUL : c_str [NUL] = [] := by
  simp [c_str]

theorem appendTimes_single (n : Nat) (c : Char) (expanded : List Char) :
    appendTimes n [c] expanded = expanded ++ List.replicate n c := by
  induction n generalizing expanded with
  | zero => simp [appendTimes]
  | succ n ih =>
    rw [appendTimes, ih, List.replicate_succ]
    simp

theorem getElem?_append_offset (pre s : List Char) (k : Nat) :
    (pre ++ s)[pre.length + k]? = s[k]? := by
  rw [List.getElem?_append_right (by omega)]
  simp

theorem stringAt_append_offset (pre s : List Char) (k : Nat) :
    stringAt (pre ++ s) (pre.length + k) = stringAt s k := by
  simp only [stringAt, getElem?_append_offset]

theorem stringAt_append_cons (pre post : List Char) (c : Char) :
    stringAt (pre ++ c :: post) pre.length = .ok c := by
  have h := stringAt_append_offset pre (c :: post) 0
  simpa [stringAt] using h

/-! ## Facts about the scanning loop -/

theorem scanLoop_unfold (encoded : List Char) (st : LoopState) :
    scanLoop encoded st =
      if st.i < encoded.length then
        match loopBody encoded st with
        | .next st' => scanLoop encoded st'
        | .returnFalse => .returnFalse
        | .thrown e => .thrown e
      else .finished st.expanded := by
  rw [scanLoop]
  split
  · split <;> simp_all
  · rfl

theorem scanLoop_at_end (encoded : List Char) (st : LoopState)
    (h : encoded.length ≤ st.i) : scanLoop encoded st = .finished st.expanded := by
  rw [scanLoop_unfold, if_neg (by omega)]

theorem scanLoop_stateAfter (encoded : List Char) (k : Nat) (st : LoopState)
    (h : stateAfter encoded k = some st) :
    scanLoop encoded ⟨0, []⟩ = scanLoop encoded st := by
  induction k generalizing st with
  | zero =>
    simp [stateAfter] at h
    rw [h]
  | succ k ih =>
    rw [stateAfter] at h
    split at h
    · cases h
    · rename_i prev hprev
      rw [ih prev hprev]
      split at h
      · rename_i hlt
        split at h
        · rename_i st' hbody
          cases h
          rw [scanLoop_unfold encoded prev, if_pos hlt, hbody]
        · cases h
      · cases h

theorem loopBody_copy (pre post : List Char) (c : Char) (expanded : List Char)
    (hm : c ≠ MARKER) :
    loopBody (pre ++ c :: post) ⟨pre.length, expanded⟩ =
      .next ⟨pre.length + 1, expanded ++ c_str [c]⟩ := by
  simp [loopBody, stringAt_append_cons, hm]

theorem scanLoop_copy (s pre post expanded : List Char)
    (hs : ∀ c ∈ s, c ≠ MARKER ∧ c ≠ NUL) :
    scanLoop (pre ++ s ++ post) ⟨pre.length, expanded⟩ =
      scanLoop (pre ++ s ++ post) ⟨pre.length + s.length, expanded ++ s⟩ := by
  induction s generalizing pre expanded with
  | nil => simp
  | cons c cs ih =>
    have hc := hs c (by simp)
    have ih1 := ih (pre ++ [c]) (expanded ++ [c]) (fun x hx => hs x (by simp [hx]))
    have e1 : pre ++ [c] ++ cs ++ post = pre ++ c :: (cs ++ post) := by simp
    have e2 : pre ++ c :: cs ++ post = pre ++ c :: (cs ++ post) := by simp
    have e3 : (pre ++ [c]).length = pre.length + 1 := by simp
    have e4 : pre.length + 1 + cs.length = pre.length + (c :: cs).length := by
      simp only [List.length_cons]; omega
    have e5 : expanded ++ [c] ++ cs = expanded ++ c :: cs := by simp
    rw [e1, e3, e4, e5] at ih1
    rw [e2, scanLoop_unfold, if_pos (by simp), loopBody_copy _ _ _ _ hc.1, c_str_single c hc.2]
    exact ih1

theorem loopBody_run (pre post : List Char) (c h1 h2 : Char) (expanded : List Char)
    (hrep : 0 ≠ repeatCount h1 h2) :
    loopBody (pre ++ c :: MARKER :: h1 :: h2 :: post) ⟨pre.length + 1, expanded⟩ =
      .next ⟨pre.length + 1 + 2 + 1,
        appendTimes (repeatCount h1 h2) (c_str [c]) expanded⟩ := by
  have a0 : stringAt (pre ++ c :: MARKER :: h1 :: h2 :: post) (pre.length + 1) = .ok MARKER := by
    rw [stringAt_append_offset]; rfl
  have a1 : stringAt (pre ++ c :: MARKER :: h1 :: h2 :: post) (pre.length + 1 - 1) = .ok c := by
    rw [Nat.add_sub_cancel, stringAt_append_cons]
  have a2 : stringAt (pre ++ c :: MARKER :: h1 :: h2 :: post) (pre.length + 1 + 1) = .ok h1 := by
    rw [Nat.add_assoc, stringAt_append_offset]; rfl
  have a3 : stringAt (pre ++ c :: MARKER :: h1 :: h2 :: post) (pre.length + 1 + 2) = .ok h2 := by
    rw [Nat.add_assoc, stringAt_append_offset]; simp [stringAt]
  have hlen : ¬ (pre ++ c :: MARKER :: h1 :: h2 :: post).length - 2 = pre.length + 1 := by
    simp only [List.length_append, List.length_cons]; omega
  unfold loopBody
  simp only [a0, a1, a2, a3, hlen, hrep, if_true, if_false]
  simp

/-- How `RunlengthDecode` ends when the scan has reached a state at or past
the end of the text. -/
theorem RunlengthDecode_of_finished (encoded : List Char) (k : Nat) (st : LoopState)
    (h : stateAfter encoded k = some st) (hend : encoded.length ≤ st.i) :
    RunlengthDecode encoded = (.returned true, st.expanded) := by
  unfold RunlengthDecode
  rw [scanLoop_stateAfter encoded k st h, scanLoop_at_end encoded st hend]
  simp

/-- How `RunlengthDecode` ends when the body run from a reached state leaves
the loop. -/
theorem RunlengthDecode_of_returnFalse (encoded : List Char) (k : Nat) (st : LoopState)
    (h : stateAfter encoded k = some st) (hlt : st.i < encoded.length)
    (hb : loopBody encoded st = .returnFalse) :
    RunlengthDecode encoded = (.returned false, encoded) := by
  unfold RunlengthDecode
  rw [scanLoop_stateAfter encoded k st h, scanLoop_unfold, if_pos hlt, hb]

theorem RunlengthDecode_of_thrown (encoded : List Char) (k : Nat) (st : LoopState)
    (e : CppException)
    (h : stateAfter encoded k = some st) (hlt : st.i < encoded.length)
    (hb : loopBody encoded st = .thrown e) :
    RunlengthDecode encoded = (.thrown e, encoded) := by
  unfold RunlengthDecode
  rw [scanLoop_stateAfter encoded k st h, scanLoop_unfold, if_pos hlt, hb]

/-! ## Claims about RunlengthDecode -/

/-- C1 (as amended): for NUL-free and marker-free texts `p` and `q`, a
character `c` that is neither NUL nor the marker, and two hex digits of value
`n = 16 * d1 + d2` with `1 ≤ n`, decoding `p ++ [c] ++ "*" ++ [h1, h2] ++ q`
returns true and leaves `p ++ (c repeated n + 1 times) ++ q`: the count is
the number of additional copies. -/
theorem RunlengthDecode_expands_run (p q : List Char) (c h1 h2 : Char) (d1 d2 : Nat)
    (hp : ∀ x ∈ p, x ≠ MARKER ∧ x ≠ NUL) (hq : ∀ x ∈ q, x ≠ MARKER ∧ x ≠ NUL)
    (hcm : c ≠ MARKER) (hcn : c ≠ NUL)
    (hd1 : hexDigitValue h1 = some d1) (hd2 : hexDigitValue h2 = some d2)
    (hn : 1 ≤ 16 * d1 + d2) :
    RunlengthDecode (p ++ [c] ++ [MARKER] ++ [h1, h2] ++ q) =
      (.returned true, p ++ List.replicate (16 * d1 + d2 + 1) c ++ q) := by
  have hrep := repeatCount_hexDigits h1 h2 d1 d2 hd1 hd2
  have hpc : ∀ x ∈ p ++ [c], x ≠ MARKER ∧ x ≠ NUL := by
    intro x hx
    rcases List.mem_append.mp hx with hx | hx
    · exact hp x hx
    · rw [List.mem_singleton] at hx
      subst hx
      exact ⟨hcm, hcn⟩
  have s1 := scanLoop_copy (p ++ [c]) [] (MARKER :: h1 :: h2 :: q) [] hpc
  have s2 := loopBody_run p q c h1 h2 (p ++ [c]) (by omega)
  have s3 := scanLoop_copy q (p ++ [c, MARKER, h1, h2]) []
    (appendTimes (repeatCount h1 h2) (c_str [c]) (p ++ [c])) hq
  have e1 : [] ++ (p ++ [c]) ++ MARKER :: h1 :: h2 :: q =
      p ++ c :: MARKER :: h1 :: h2 :: q := by simp
  have e3 : p ++ [c, MARKER, h1, h2] ++ q ++ [] =
      p ++ c :: MARKER :: h1 :: h2 :: q := by simp
  have e0 : p ++ [c] ++ [MARKER] ++ [h1, h2] ++ q =
      p ++ c :: MARKER :: h1 :: h2 :: q := by simp
  have l1 : ([] : List Char).length + (p ++ [c]).length = p.length + 1 := by simp
  have l3 : (p ++ [c, MARKER, h1, h2]).length = p.length + 1 + 2 + 1 := by simp
  rw [e1, l1] at s1
  rw [e3, l3] at s3
  have hlt : p.length + 1 < (p ++ c :: MARKER :: h1 :: h2 :: q).length := by
    simp only [List.length_append, List.length_cons]; omega
  unfold RunlengthDecode
  rw [e0]
  simp only [List.length_nil, List.nil_append] at s1
  rw [s1, scanLoop_unfold, if_pos hlt, s2]
  simp only
  rw [s3, scanLoop_at_end _ _ (by simp only [List.length_append, List.length_cons]; omega)]
  simp only [List.nil_append, Prod.mk.injEq, true_and]
  rw [hrep, c_str_single c hcn, appendTimes_single, List.replicate_succ]
  simp

/-- Witness of C1: the text `a*03` decodes to `aaaa`. -/
theorem RunlengthDecode_expands_run_witness :
    RunlengthDecode ['a', MARKER, '0', '3'] = (.returned true, ['a', 'a', 'a', 'a']) := by
  simpa using RunlengthDecode_expands_run [] [] 'a' '0' '3' 0 3 (by simp) (by simp)
    (by decide) (by decide) (by decide) (by decide) (by decide)

/-- C1 as stated fails: with the marker-free prefix made of one NUL character
the decoder drops the NUL, so the result is `aaaa` and not the prefix followed
by `aaaa`. -/
theorem RunlengthDecode_run_drops_NUL :
    (∀ x ∈ [NUL], x ≠ MARKER) ∧
    RunlengthDecode ([NUL] ++ ['a'] ++ [MARKER] ++ ['0', '3'] ++ []) =
      (.returned true, ['a', 'a', 'a', 'a']) ∧
    RunlengthDecode ([NUL] ++ ['a'] ++ [MARKER] ++ ['0', '3'] ++ []) ≠
      (.returned true, [NUL] ++ List.replicate (16 * 0 + 3 + 1) 'a' ++ []) := by
  have h : RunlengthDecode ([NUL] ++ ['a'] ++ [MARKER] ++ ['0', '3'] ++ []) =
      (.returned true, ['a', 'a', 'a', 'a']) :=
    RunlengthDecode_of_finished _ 3 ⟨5, ['a', 'a', 'a', 'a']⟩ (by decide) (by decide)
  refine ⟨by decide, h, ?_⟩
  rw [h]
  decide

/-- C5 (as amended): on a text with no marker and no NUL character the
decoder returns true and leaves the text as it was. -/
theorem RunlengthDecode_identity (s : List Char) (hs : ∀ c ∈ s, c ≠ MARKER ∧ c ≠ NUL) :
    RunlengthDecode s = (.returned true, s) := by
  have h := scanLoop_copy s [] [] [] hs
  simp only [List.nil_append, List.append_nil, List.length_nil, Nat.zero_add] at h
  unfold RunlengthDecode
  rw [h, scanLoop_at_end _ _ (Nat.le_refl _)]
  simp

/-- Witness of C5: the marker-free text `0fz` is left as it is. -/
theorem RunlengthDecode_identity_witness :
    RunlengthDecode ['0', 'f', 'z'] = (.returned true, ['0', 'f', 'z']) :=
  RunlengthDecode_identity ['0', 'f', 'z'] (by decide)

/-- C5 as stated fails: the marker-free text `a NUL b` is decoded to `ab`. -/
theorem RunlengthDecode_identity_fails_on_NUL :
    (∀ c ∈ ['a', NUL, 'b'], c ≠ MARKER) ∧
    RunlengthDecode ['a', NUL, 'b'] = (.returned true, ['a', 'b']) ∧
    RunlengthDecode ['a', NUL, 'b'] ≠ (.returned true, ['a', NUL, 'b']) := by
  have h : RunlengthDecode ['a', NUL, 'b'] = (.returned true, ['a', 'b']) :=
    RunlengthDecode_of_finished _ 3 ⟨3, ['a', 'b']⟩ (by decide) (by decide)
  refine ⟨by decide, h, ?_⟩
  rw [h]
  decide

/-- C7: a text that starts with the marker is rejected, whatever follows, and
is left unchanged. -/
theorem RunlengthDecode_leading_marker (rest : List Char) :
    RunlengthDecode (MARKER :: rest) = (.returned false, MARKER :: rest) :=
  RunlengthDecode_of_returnFalse _ 0 ⟨0, []⟩ rfl (by simp) (by simp [loopBody, stringAt])

/-- A marker reached at the second-to-last position makes the call return
false: the guard `(encoded.length() - 2) == i` of the source. -/
theorem RunlengthDecode_marker_second_to_last (encoded : List Char) (k : Nat)
    (st : LoopState) (h : stateAfter encoded k = some st)
    (hm : encoded[st.i]? = some MARKER) (hpos : st.i + 2 = encoded.length) :
    RunlengthDecode encoded = (.returned false, encoded) := by
  refine RunlengthDecode_of_returnFalse encoded k st h (by omega) ?_
  have hl : encoded.length - 2 = st.i := by omega
  simp [loopBody, stringAt, hm, hl]

/-- C4, the failing case: when the scan reaches a marker that is the last
character of the text and not the first, `encoded.at(i + 1)` raises
`std::out_of_range`; the call does not return false. -/
theorem RunlengthDecode_marker_last_throws (encoded : List Char) (k : Nat)
    (st : LoopState) (h : stateAfter encoded k = some st)
    (hm : encoded[st.i]? = some MARKER) (hlast : st.i + 1 = encoded.length)
    (h0 : st.i ≠ 0) :
    RunlengthDecode encoded = (.thrown .out_of_range, encoded) := by
  refine RunlengthDecode_of_thrown encoded k st _ h (by omega) ?_
  have hl : ¬ encoded.length - 2 = st.i := by omega
  have h0' : ¬ 0 = st.i := fun e => h0 e.symm
  have hprev : ∃ r, encoded[st.i - 1]? = some r :=
    ⟨encoded[st.i - 1], List.getElem?_eq_getElem (by omega)⟩
  obtain ⟨r, hr⟩ := hprev
  have hnext : encoded[st.i + 1]? = none := List.getElem?_eq_none (by omega)
  simp [loopBody, stringAt, hm, hl, h0', hr, hnext]

/-- Witness of C4's failing case: on `a*` the call raises `out_of_range`. -/
theorem RunlengthDecode_marker_last_throws_witness :
    RunlengthDecode ['a', MARKER] = (.thrown .out_of_range, ['a', MARKER]) :=
  RunlengthDecode_marker_last_throws ['a', MARKER] 1 ⟨1, ['a']⟩ (by decide) (by decide)
    (by decide) (by decide)

/-- C6: when the scan reaches a marker that is not at position 0 and has two
characters after it which `strtoul` converts to 0, the call returns false and
leaves the text unchanged. -/
theorem RunlengthDecode_zero_count (encoded : List Char) (k : Nat) (st : LoopState)
    (c0 c1 : Char) (h : stateAfter encoded k = some st)
    (hm : encoded[st.i]? = some MARKER) (h0 : st.i ≠ 0)
    (h1 : encoded[st.i + 1]? = some c0) (h2 : encoded[st.i + 2]? = some c1)
    (hz : strtoul (c_str [c0, c1]) = 0) :
    RunlengthDecode encoded = (.returned false, encoded) := by
  have hlen : st.i + 2 < encoded.length := by
    by_contra hge
    rw [List.getElem?_eq_none (by omega)] at h2
    cases h2
  refine RunlengthDecode_of_returnFalse encoded k st h (by omega) ?_
  have hl : ¬ encoded.length - 2 = st.i := by omega
  have h0' : ¬ 0 = st.i := fun e => h0 e.symm
  have hprev : ∃ r, encoded[st.i - 1]? = some r :=
    ⟨encoded[st.i - 1], List.getElem?_eq_getElem (by omega)⟩
  obtain ⟨r, hr⟩ := hprev
  have hrep : repeatCount c0 c1 = 0 := by
    unfold repeatCount toUnsignedInt
    rw [hz]
    rfl
  simp [loopBody, stringAt, hm, hl, h0', hr, h1, h2, hrep]

/-- Witness of C6: `a*00` is rejected. -/
theorem RunlengthDecode_zero_count_witness :
    RunlengthDecode ['a', MARKER, '0', '0'] = (.returned false, ['a', MARKER, '0', '0']) :=
  RunlengthDecode_zero_count ['a', MARKER, '0', '0'] 1 ⟨1, ['a']⟩ '0' '0' (by decide)
    (by decide) (by decide) (by decide) (by decide) (by decide)

/-- C8: when the call returns false the caller's text is what it was; when it
returns true the text is the local string `expanded` that the scan built
from the empty string; and a call that raises also leaves the text as it
was. -/
theorem RunlengthDecode_atomic (encoded : List Char) :
    ((RunlengthDecode encoded).1 = .returned false → (RunlengthDecode encoded).2 = encoded) ∧
    ((RunlengthDecode encoded).1 = .returned true →
      scanLoop encoded ⟨0, []⟩ = .finished (RunlengthDecode encoded).2) ∧
    (∀ e, (RunlengthDecode encoded).1 = .thrown e → (RunlengthDecode encoded).2 = encoded) := by
  unfold RunlengthDecode
  cases scanLoop encoded ⟨0, []⟩ <;> simp

/-! ## Facts about parseRegistersString -/

theorem substr_ok (s : List Char) (pos n : Nat) (h : pos ≤ s.length) :
    substr s pos n = .ok (sliceAt s pos n) := by
  unfold substr sliceAt
  rw [if_neg (by omega)]

theorem substr_error (s : List Char) (pos n : Nat) (h : s.length < pos) :
    substr s pos n = .error .out_of_range := by
  unfold substr
  rw [if_pos (by omega)]

theorem pushSlices_ok (s : List Char) (stmts : List SliceStmt) (regs : List RegisterValue)
    (h : ∀ st ∈ stmts, st.pos ≤ s.length) :
    pushSlices s stmts regs =
      (none, regs ++ stmts.map (fun st =>
        makeRegisterValue st.name (sliceAt s st.pos 8) st.isPc st.isSp)) := by
  induction stmts generalizing regs with
  | nil => simp [pushSlices]
  | cons st rest ih =>
    rw [pushSlices, substr_ok s st.pos 8 (h st (by simp))]
    simp only
    rw [ih _ (fun x hx => h x (by simp [hx]))]
    simp

theorem pushSlices_throws (s : List Char) (stmts : List SliceStmt)
    (regs : List RegisterValue) (h : ∃ st ∈ stmts, s.length < st.pos) :
    (pushSlices s stmts regs).1 = some .out_of_range := by
  induction stmts generalizing regs with
  | nil =>
    obtain ⟨st, hst, _⟩ := h
    cases hst
  | cons st rest ih =>
    rw [pushSlices]
    by_cases hlt : s.length < st.pos
    · rw [substr_error s st.pos 8 hlt]
    · rw [substr_ok s st.pos 8 (by omega)]
      simp only
      apply ih
      obtain ⟨x, hx, hxlt⟩ := h
      rcases List.mem_cons.mp hx with rfl | hx
      · exact absurd hxlt hlt
      · exact ⟨x, hx, hxlt⟩

theorem pushSlices_extends (s : List Char) (stmts : List SliceStmt)
    (regs : List RegisterValue) :
    ∃ extra, (pushSlices s stmts regs).2 = regs ++ extra := by
  induction stmts generalizing regs with
  | nil => exact ⟨[], by simp [pushSlices]⟩
  | cons st rest ih =>
    rw [pushSlices]
    split
    · exact ⟨[], by simp⟩
    · rename_i v _
      obtain ⟨extra, he⟩ := ih (regs ++ [makeRegisterValue st.name v st.isPc st.isSp])
      exact ⟨makeRegisterValue st.name v st.isPc st.isSp :: extra, by rw [he]; simp⟩

theorem sliceStatements_pos_le : ∀ st ∈ sliceStatements, st.pos ≤ 488 := by
  decide

theorem sliceStatements_reach_488 : ∃ st ∈ sliceStatements, st.pos = 488 := by
  decide

theorem sliceStatements_head :
    sliceStatements = ⟨"??", 0, false, false⟩ :: sliceStatements.tail := by
  decide

/-- The run of `parseRegistersString` on a text of at least 488 characters:
it returns `SUCCESS` and appends the sliced values and the derived fields. -/
theorem parseRegistersString_ok (regs : List RegisterValue) (s : List Char)
    (h : 488 ≤ s.length) :
    parseRegistersString regs s =
      (.returned .SUCCESS,
        regs ++ slicedValues s ++ xerFields (slotValue (sliceAt s (38 * 8) 8)) ++
          crFields (slotValue (sliceAt s (35 * 8) 8)) ++
          fpscrFields (slotValue (sliceAt s (39 * 8) 8))) := by
  unfold parseRegistersString
  rw [pushSlices_ok s sliceStatements regs
    (fun st hst => Nat.le_trans (sliceStatements_pos_le st hst) h)]
  simp only
  rw [substr_ok s (38 * 8) 8 (by omega), substr_ok s (35 * 8) 8 (by omega),
    substr_ok s (39 * 8) 8 (by omega)]
  rfl

/-- The run of `parseRegistersString` on a text of fewer than 488 characters:
a `substr` raises, after at least the value named `??` has been appended. -/
theorem parseRegistersString_short (regs : List RegisterValue) (s : List Char)
    (h : s.length < 488) :
    (parseRegistersString regs s).1 = .thrown .out_of_range ∧
    ∃ extra, extra ≠ [] ∧ (parseRegistersString regs s).2 = regs ++ extra := by
  have hthrow : (pushSlices s sliceStatements regs).1 = some .out_of_range := by
    apply pushSlices_throws
    obtain ⟨st, hst, hpos⟩ := sliceStatements_reach_488
    exact ⟨st, hst, by omega⟩
  have hext : ∃ extra, extra ≠ [] ∧ (pushSlices s sliceStatements regs).2 = regs ++ extra := by
    rw [sliceStatements_head, pushSlices, substr_ok s 0 8 (Nat.zero_le _)]
    simp only
    obtain ⟨extra, he⟩ := pushSlices_extends s sliceStatements.tail
      (regs ++ [makeRegisterValue "??" (sliceAt s 0 8) false false])
    exact ⟨makeRegisterValue "??" (sliceAt s 0 8) false false :: extra, by simp, by rw [he]; simp⟩
  unfold parseRegistersString
  cases hp : pushSlices s sliceStatements regs with
  | mk e registers =>
    rw [hp] at hthrow hext
    simp only at hthrow hext
    subst hthrow
    exact ⟨rfl, hext⟩

/-! ## Looking a name up in the parsed vector -/

theorem valueOf_nil (n : String) : valueOf n [] = none := rfl

theorem valueOf_cons (n : String) (r : RegisterValue) (rest : List RegisterValue) :
    valueOf n (r :: rest) = if r.name = n then some r.value else valueOf n rest := by
  unfold valueOf
  rw [List.find?_cons]
  by_cases h : r.name = n <;> simp [h]

theorem valueOf_append (n : String) (l1 l2 : List RegisterValue) :
    valueOf n (l1 ++ l2) = if n ∈ valueNames l1 then valueOf n l1 else valueOf n l2 := by
  induction l1 with
  | nil => simp [valueNames]
  | cons r rest ih =>
    rw [List.cons_append, valueOf_cons, valueOf_cons, ih]
    by_cases h : r.name = n
    · simp [h, valueNames]
    · have h' : ¬ n = r.name := fun e => h e.symm
      simp [h, h', valueNames]

theorem valueOf_map_stmts (stmts : List SliceStmt) (g : SliceStmt → List Char)
    (hnd : (stmts.map (fun x => x.name)).Nodup) (st : SliceStmt) (hst : st ∈ stmts) :
    valueOf st.name (stmts.map (fun x => makeRegisterValue x.name (g x) x.isPc x.isSp)) =
      some (g st) := by
  induction stmts with
  | nil => cases hst
  | cons x rest ih =>
    rw [List.map_cons, List.nodup_cons] at hnd
    rw [List.map_cons, valueOf_cons]
    rcases List.mem_cons.mp hst with rfl | hrest
    · simp [makeRegisterValue]
    · have hne : ¬ (makeRegisterValue x.name (g x) x.isPc x.isSp).name = st.name := by
        intro e
        apply hnd.1
        rw [List.mem_map]
        exact ⟨st, hrest, e.symm⟩
      rw [if_neg hne]
      exact ih hnd.2 hrest

set_option maxRecDepth 100000 in
theorem sliceStatements_names_nodup : (sliceStatements.map (fun x => x.name)).Nodup := by
  decide

theorem valueOf_slicedValues (s : List Char) (st : SliceStmt) (hst : st ∈ sliceStatements) :
    valueOf st.name (slicedValues s) = some (sliceAt s st.pos 8) :=
  valueOf_map_stmts sliceStatements (fun x => sliceAt s x.pos 8)
    sliceStatements_names_nodup st hst

theorem valueNames_slicedValues (s : List Char) :
    valueNames (slicedValues s) = sliceStatements.map (fun x => x.name) := by
  simp [valueNames, slicedValues, makeRegisterValue, Function.comp_def]

/-- The value text a parse of a long enough text gives to a sliced name. -/
theorem valueOf_parsed_slice (s : List Char) (h : 488 ≤ s.length) (st : SliceStmt)
    (hst : st ∈ sliceStatements) :
    valueOf st.name (parseRegistersString [] s).2 = some (sliceAt s st.pos 8) := by
  have hmem : st.name ∈ valueNames (slicedValues s) := by
    rw [valueNames_slicedValues]
    exact List.mem_map.mpr ⟨st, hst, rfl⟩
  rw [parseRegistersString_ok [] s h]
  simp only [List.nil_append, List.append_assoc]
  rw [valueOf_append, if_pos hmem, valueOf_slicedValues s st hst]

/-! ## Claims about parseRegistersString -/

/-- C2 (as amended): `parseRegistersString` returns `SUCCESS` exactly when the
text has at least 488 characters, the start of the last slot it reads; it
raises `std::out_of_range` exactly when the text is shorter than that, and
then the values sliced before the failure have already been appended to the
vector.  No outcome is an error code. -/
theorem parseRegistersString_outcome (registers : List RegisterValue)
    (regString : List Char) :
    ((parseRegistersString registers regString).1 = .returned .SUCCESS ↔
      488 ≤ regString.length) ∧
    ((parseRegistersString registers regString).1 = .thrown .out_of_range ↔
      regString.length < 488) ∧
    (regString.length < 488 →
      ∃ extra, extra ≠ [] ∧ (parseRegistersString registers regString).2 = registers ++ extra) := by
  by_cases h : 488 ≤ regString.length
  · rw [parseRegistersString_ok registers regString h]
    refine ⟨by simp [h], ?_, fun hlt => absurd h (by omega)⟩
    constructor
    · intro e; cases e
    · intro hlt; omega
  · have hs := parseRegistersString_short registers regString (by omega)
    rw [hs.1]
    refine ⟨?_, by simp; omega, fun _ => hs.2⟩
    constructor
    · intro e; cases e
    · intro hge; exact absurd hge h

set_option maxRecDepth 100000 in
/-- C2 as stated fails: a text one hex digit shorter than the 496 characters
of 62 slots is accepted, and the value of the last slot is cut to 7
characters. -/
theorem parseRegistersString_accepts_truncated :
    (List.replicate 495 '0').length + 1 = 62 * 8 ∧
    (parseRegistersString [] (List.replicate 495 '0')).1 = .returned .SUCCESS ∧
    valueOf "u_reg61" (parseRegistersString [] (List.replicate 495 '0')).2 =
      some (List.replicate 7 '0') := by
  have hlen : 488 ≤ (List.replicate 495 '0').length := by simp
  have hst : (⟨"u_reg61", 488, false, false⟩ : SliceStmt) ∈ sliceStatements := by decide
  have hv := valueOf_parsed_slice (List.replicate 495 '0') hlen _ hst
  refine ⟨by simp, ?_, ?_⟩
  · rw [parseRegistersString_ok [] _ hlen]
  · rw [hv]
    simp [sliceAt]

set_option maxRecDepth 100000 in
theorem catalog_head_matches : ∀ i < 35,
    (getRegisterNames[i]?).map (fun d => (d.name, 2 * catalogOffset i, 2 * d.size)) =
      (sliceStatements[i]?).map (fun st => (st.name, st.pos, 8)) := by
  decide

/-- C3 (as amended): on a text of at least 488 characters, the value given to
each of the first 35 descriptors of the catalog (`??`, `r0`, `sp`, `r2` to
`r31`, `pc`, `msr`) is the slice at hex offset twice the sum of the sizes
before it, of length twice its size; and every sliced name gets the 8
characters at the fixed position of its own slicing statement, whatever the
catalog order is. -/
theorem parseRegistersString_catalog_offsets (regString : List Char)
    (hlen : 488 ≤ regString.length) :
    (∀ i d, i < 35 → getRegisterNames[i]? = some d →
      valueOf d.name (parseRegistersString [] regString).2 =
        some (sliceAt regString (2 * catalogOffset i) (2 * d.size))) ∧
    (∀ st ∈ sliceStatements,
      valueOf st.name (parseRegistersString [] regString).2 =
        some (sliceAt regString st.pos 8)) := by
  refine ⟨?_, fun st hst => valueOf_parsed_slice regString hlen st hst⟩
  intro i d hi hd
  have hm := catalog_head_matches i hi
  rw [hd] at hm
  cases hs : sliceStatements[i]? with
  | none => rw [hs] at hm; cases hm
  | some st =>
    rw [hs] at hm
    simp only [Option.map_some', Option.some.injEq, Prod.mk.injEq] at hm
    obtain ⟨hname, hpos, hsize⟩ := hm
    rw [hname, hpos, hsize]
    exact valueOf_parsed_slice regString hlen st (List.getElem?_mem hs)

set_option maxRecDepth 100000 in
/-- Witness of C3: on the synthetic dump of 62 slots the value of `sp`, the
descriptor at index 2, is the slice at its catalog offset. -/
theorem parseRegistersString_catalog_offsets_witness :
    488 ≤ (syntheticDump 62).length ∧
    valueOf "sp" (parseRegistersString [] (syntheticDump 62)).2 =
      some (sliceAt (syntheticDump 62) (2 * catalogOffset 2) (2 * 4)) :=
  ⟨by decide,
    (parseRegistersString_catalog_offsets (syntheticDump 62) (by decide)).1 2
      (makeRegisterDescription "sp" 4 true) (by decide) (by decide)⟩

set_option maxRecDepth 100000 in
/-- C3 as stated fails: `lr` is the descriptor at index 35 of the catalog, so
its catalog offset is hex position 280, but the parser gives it the slice at
position 288. -/
theorem parseRegistersString_lr_off_catalog :
    getRegisterNames[35]? = some (makeRegisterDescription "lr" 4 true) ∧
    488 ≤ (syntheticDump 62).length ∧
    valueOf "lr" (parseRegistersString [] (syntheticDump 62)).2 =
      some ['0', '0', '0', '0', '0', '0', '2', '4'] ∧
    sliceAt (syntheticDump 62) (2 * catalogOffset 35) (2 * 4) =
      ['0', '0', '0', '0', '0', '0', '2', '3'] := by
  have hlen : 488 ≤ (syntheticDump 62).length := by decide
  have hst : (⟨"lr", 36 * 8, false, false⟩ : SliceStmt) ∈ sliceStatements := by decide
  have hv := valueOf_parsed_slice (syntheticDump 62) hlen _ hst
  refine ⟨by decide, hlen, ?_, by decide⟩
  rw [hv]
  decide

/-! ## Derived fields -/

theorem valueNames_xerFields (v : Nat) : valueNames (xerFields v) = xerSubfields := rfl

set_option maxRecDepth 100000 in
theorem valueNames_crFields (v : Nat) : valueNames (crFields v) = crSubfields := by
  rfl

theorem valueNames_fpscrFields (v : Nat) : valueNames (fpscrFields v) = fpscrSubfields := rfl

set_option maxRecDepth 100000 in
theorem xerSubfields_fresh :
    ∀ n ∈ xerSubfields, n ∉ sliceStatements.map (fun x => x.name) := by
  decide

set_option maxRecDepth 100000 in
theorem crSubfields_fresh :
    ∀ n ∈ crSubfields, n ∉ sliceStatements.map (fun x => x.name) ∧ n ∉ xerSubfields := by
  decide

set_option maxRecDepth 100000 in
theorem fpscrSubfields_fresh :
    ∀ n ∈ fpscrSubfields, n ∉ sliceStatements.map (fun x => x.name) ∧ n ∉ xerSubfields ∧
      n ∉ crSubfields := by
  decide

theorem valueOf_parsed_xer (s : List Char) (h : 488 ≤ s.length) (n : String)
    (hn : n ∈ xerSubfields) :
    valueOf n (parseRegistersString [] s).2 =
      valueOf n (xerFields (slotValue (sliceAt s (38 * 8) 8))) := by
  rw [parseRegistersString_ok [] s h]
  simp only [List.nil_append, List.append_assoc]
  rw [valueOf_append, if_neg (by rw [valueNames_slicedValues]; exact xerSubfields_fresh n hn),
    valueOf_append, if_pos (by rw [valueNames_xerFields]; exact hn)]

theorem valueOf_parsed_cr (s : List Char) (h : 488 ≤ s.length) (n : String)
    (hn : n ∈ crSubfields) :
    valueOf n (parseRegistersString [] s).2 =
      valueOf n (crFields (slotValue (sliceAt s (35 * 8) 8))) := by
  rw [parseRegistersString_ok [] s h]
  simp only [List.nil_append, List.append_assoc]
  rw [valueOf_append,
    if_neg (by rw [valueNames_slicedValues]; exact (crSubfields_fresh n hn).1),
    valueOf_append, if_neg (by rw [valueNames_xerFields]; exact (crSubfields_fresh n hn).2),
    valueOf_append, if_pos (by rw [valueNames_crFields]; exact hn)]

theorem valueOf_parsed_fpscr (s : List Char) (h : 488 ≤ s.length) (n : String)
    (hn : n ∈ fpscrSubfields) :
    valueOf n (parseRegistersString [] s).2 =
      valueOf n (fpscrFields (slotValue (sliceAt s (39 * 8) 8))) := by
  rw [parseRegistersString_ok [] s h]
  simp only [List.nil_append, List.append_assoc]
  rw [valueOf_append,
    if_neg (by rw [valueNames_slicedValues]; exact (fpscrSubfields_fresh n hn).1),
    valueOf_append, if_neg (by rw [valueNames_xerFields]; exact (fpscrSubfields_fresh n hn).2.1),
    valueOf_append, if_neg (by rw [valueNames_crFields]; exact (fpscrSubfields_fresh n hn).2.2)]

set_option maxRecDepth 100000 in
theorem crGroupName_mem : ∀ N < 8, crGroupName N ∈ crSubfields := by
  decide

set_option maxRecDepth 100000 in
theorem crFlagName_mem : ∀ N < 8, ∀ k < 4, crGroupName N ++ crFlagSuffix k ∈ crSubfields := by
  decide

set_option maxRecDepth 100000 in
theorem crFields_group (v N : Nat) (hN : N < 8) :
    valueOf (crGroupName N) (crFields v) = some (toHexString ((v >>> (4 * N)) &&& 0xF)) := by
  interval_cases N <;> rfl

set_option maxRecDepth 100000 in
theorem crFields_flag (v N k : Nat) (hN : N < 8) (hk : k < 4) :
    valueOf (crGroupName N ++ crFlagSuffix k) (crFields v) =
      some (toHexString ((((v >>> (4 * N)) &&& 0xF) >>> k) &&& 1)) := by
  interval_cases N <;> interval_cases k <;> rfl

theorem group_flag_bit (v N k : Nat) (hk : k < 4) :
    (((v >>> (4 * N)) &&& 0xF) >>> k) &&& 1 = v / 2 ^ (4 * N + k) % 2 := by
  rw [Nat.shiftRight_eq_div_pow, Nat.shiftRight_eq_div_pow, Nat.and_one_is_mod,
    show (0xF : Nat) = 2 ^ 4 - 1 from rfl, Nat.and_pow_two_sub_one_eq_mod, Nat.pow_add,
    ← Nat.div_div_eq_div_mul]
  generalize v / 2 ^ (4 * N) = w
  interval_cases k <;> omega

theorem sliceAt_length_le (s : List Char) (pos n : Nat) : (sliceAt s pos n).length ≤ n := by
  unfold sliceAt
  exact List.length_take_le n _

/-- C9: when the condition register slot of a text of at least 488 characters
holds hex digits of value `v`, the value pushed for group `crN` renders
`(v >> 4N) & 0xF`, and the values pushed for `crN_LT`, `crN_GT`, `crN_EQ`,
`crN_SO` render bits `4N`, `4N + 1`, `4N + 2`, `4N + 3` of `v`, bit 0 being
the least significant. -/
theorem parseRegistersString_cr_split (regString ds : List Char) (N : Nat)
    (hlen : 488 ≤ regString.length) (hslot : sliceAt regString (35 * 8) 8 = ds)
    (hhex : IsHexText ds) (hN : N < 8) :
    valueOf (crGroupName N) (parseRegistersString [] regString).2 =
      some (toHexString ((hexValue ds >>> (4 * N)) &&& 0xF)) ∧
    ∀ k, k < 4 →
      valueOf (crGroupName N ++ crFlagSuffix k) (parseRegistersString [] regString).2 =
        some (toHexString (hexValue ds / 2 ^ (4 * N + k) % 2)) := by
  have hv : slotValue (sliceAt regString (35 * 8) 8) = hexValue ds := by
    rw [hslot]
    apply slotValue_hexText ds hhex
    rw [← hslot]
    exact sliceAt_length_le _ _ _
  constructor
  · rw [valueOf_parsed_cr regString hlen _ (crGroupName_mem N hN), hv]
    exact crFields_group _ N hN
  · intro k hk
    rw [valueOf_parsed_cr regString hlen _ (crFlagName_mem N hN k hk), hv,
      crFields_flag _ N k hN hk, group_flag_bit _ N k hk]

set_option maxRecDepth 1000000 in
/-- Witness of C9: with `00000008` in the condition register slot, group 0 is
`8`, its flags are LT = 0, GT = 0, EQ = 0, SO = 1, and every flag of the
groups 1 to 7 is 0. -/
theorem parseRegistersString_cr_split_witness :
    valueOf "cr0" (parseRegistersString [] crDump).2 = some ['8'] ∧
    valueOf "cr0_LT" (parseRegistersString [] crDump).2 = some ['0'] ∧
    valueOf "cr0_GT" (parseRegistersString [] crDump).2 = some ['0'] ∧
    valueOf "cr0_EQ" (parseRegistersString [] crDump).2 = some ['0'] ∧
    valueOf "cr0_SO" (parseRegistersString [] crDump).2 = some ['1'] ∧
    (∀ N ∈ [1, 2, 3, 4, 5, 6, 7], ∀ k ∈ [0, 1, 2, 3],
      valueOf (crGroupName N ++ crFlagSuffix k) (parseRegistersString [] crDump).2 =
        some ['0']) := by
  have h0 := parseRegistersString_cr_split crDump ['0', '0', '0', '0', '0', '0', '0', '8'] 0
    (by decide) (by decide) (by decide) (by decide)
  refine ⟨h0.1.trans (by decide), (h0.2 0 (by decide)).trans (by decide),
    (h0.2 1 (by decide)).trans (by decide), (h0.2 2 (by decide)).trans (by decide),
    (h0.2 3 (by decide)).trans (by decide), ?_⟩
  intro N hN k hk
  have hN8 : N < 8 := by
    simp only [List.mem_cons, List.mem_singleton, List.not_mem_nil, or_false] at hN
    omega
  have hk4 : k < 4 := by
    simp only [List.mem_cons, List.mem_singleton, List.not_mem_nil, or_false] at hk
    omega
  have h := (parseRegistersString_cr_split crDump ['0', '0', '0', '0', '0', '0', '0', '8'] N
    (by decide) (by decide) (by decide) hN8).2 k hk4
  rw [h]
  have hval : hexValue ['0', '0', '0', '0', '0', '0', '0', '8'] = 8 := by decide
  rw [hval]
  have hpos : 1 ≤ N := by
    simp only [List.mem_cons, List.mem_singleton, List.not_mem_nil, or_false] at hN
    omega
  have hz : 8 / 2 ^ (4 * N + k) % 2 = 0 := by
    have h16 : 2 ^ 4 ≤ 2 ^ (4 * N + k) := Nat.pow_le_pow_right (by decide) (by omega)
    rw [Nat.div_eq_of_lt (by omega)]
  rw [hz]
  decide

theorem nonZeroCount_congr (names : List String) (r1 r2 : List RegisterValue)
    (h : ∀ n ∈ names, valueOf n r1 = valueOf n r2) :
    nonZeroCount names r1 = nonZeroCount names r2 := by
  unfold nonZeroCount
  apply List.countP_congr
  intro n hn
  rw [h n hn]

set_option maxRecDepth 1000000 in
theorem xerFields_single_bit :
    ∀ k < 32, nonZeroCount xerSubfields (xerFields (2 ^ k)) ≤ 1 := by
  decide

set_option maxRecDepth 1000000 in
theorem fpscrFields_single_bit :
    ∀ k < 32, nonZeroCount fpscrSubfields (fpscrFields (2 ^ k)) ≤ 1 := by
  decide

set_option maxRecDepth 1000000 in
theorem xerFields_one :
    valueOf "xer_so" (xerFields 1) = some ['1'] ∧
    ∀ n ∈ xerSubfields, n ≠ "xer_so" → valueOf n (xerFields 1) = some ['0'] := by
  decide

set_option maxRecDepth 1000000 in
theorem fpscrFields_one :
    valueOf "fpscr_FX" (fpscrFields 1) = some ['1'] ∧
    ∀ n ∈ fpscrSubfields, n ≠ "fpscr_FX" → valueOf n (fpscrFields 1) = some ['0'] := by
  decide

theorem mask_eq_div_mod (v s w : Nat) : (v >>> s) &&& (2 ^ w - 1) = v / 2 ^ s % 2 ^ w := by
  rw [Nat.shiftRight_eq_div_pow, Nat.and_pow_two_sub_one_eq_mod]

set_option maxRecDepth 100000 in
theorem xerFields_layout (v : Nat) : ∀ e ∈ xerLayout,
    valueOf e.1 (xerFields v) = some (toHexString ((v >>> e.2.1) &&& (2 ^ e.2.2 - 1))) := by
  simp only [xerLayout, List.forall_mem_cons]
  repeat' (first | rfl | constructor | (intro x hx; cases hx))

set_option maxRecDepth 100000 in
theorem fpscrFields_layout (v : Nat) : ∀ e ∈ fpscrLayout,
    valueOf e.1 (fpscrFields v) = some (toHexString ((v >>> e.2.1) &&& (2 ^ e.2.2 - 1))) := by
  simp only [fpscrLayout, List.forall_mem_cons]
  repeat' (first | rfl | constructor | (intro x hx; cases hx))

theorem layouts_disjoint :
    xerLayout.Pairwise (fun a b => a.2.1 + a.2.2 ≤ b.2.1) ∧
    fpscrLayout.Pairwise (fun a b => a.2.1 + a.2.2 ≤ b.2.1) ∧
    xerLayout.map (fun e => e.1) = xerSubfields ∧
    fpscrLayout.map (fun e => e.1) = fpscrSubfields := by
  decide

/-- C10: on a text of at least 488 characters, each XER (resp. FPSCR)
sub-field renders the bits of its own range of the integer read from the XER
(resp. FPSCR) slot, bit 0 being the least significant, and the ranges of one
register are listed in ascending order without overlap.  When that integer
has exactly one bit set among its 32 bits, at most one sub-field of the
register is non-zero; and when it is 1, the bit-0 flag `xer_so` (resp.
`fpscr_FX`) is `1` and every other sub-field of that register is `0`. -/
theorem parseRegistersString_status_fields (regString : List Char) (k : Nat)
    (hlen : 488 ≤ regString.length) (hk : k < 32) :
    (∀ e ∈ xerLayout, valueOf e.1 (parseRegistersString [] regString).2 =
      some (toHexString (slotValue (sliceAt regString (38 * 8) 8) / 2 ^ e.2.1 % 2 ^ e.2.2))) ∧
    (∀ e ∈ fpscrLayout, valueOf e.1 (parseRegistersString [] regString).2 =
      some (toHexString (slotValue (sliceAt regString (39 * 8) 8) / 2 ^ e.2.1 % 2 ^ e.2.2))) ∧
    xerLayout.Pairwise (fun a b => a.2.1 + a.2.2 ≤ b.2.1) ∧
    fpscrLayout.Pairwise (fun a b => a.2.1 + a.2.2 ≤ b.2.1) ∧
    (slotValue (sliceAt regString (38 * 8) 8) = 2 ^ k →
      nonZeroCount xerSubfields (parseRegistersString [] regString).2 ≤ 1) ∧
    (slotValue (sliceAt regString (39 * 8) 8) = 2 ^ k →
      nonZeroCount fpscrSubfields (parseRegistersString [] regString).2 ≤ 1) ∧
    (slotValue (sliceAt regString (38 * 8) 8) = 1 →
      valueOf "xer_so" (parseRegistersString [] regString).2 = some ['1'] ∧
      ∀ n ∈ xerSubfields, n ≠ "xer_so" →
        valueOf n (parseRegistersString [] regString).2 = some ['0']) ∧
    (slotValue (sliceAt regString (39 * 8) 8) = 1 →
      valueOf "fpscr_FX" (parseRegistersString [] regString).2 = some ['1'] ∧
      ∀ n ∈ fpscrSubfields, n ≠ "fpscr_FX" →
        valueOf n (parseRegistersString [] regString).2 = some ['0']) := by
  refine ⟨?_, ?_, layouts_disjoint.1, layouts_disjoint.2.1, ?_, ?_, ?_, ?_⟩
  · intro e he
    have hn : e.1 ∈ xerSubfields := by
      rw [← layouts_disjoint.2.2.1]
      exact List.mem_map.mpr ⟨e, he, rfl⟩
    rw [valueOf_parsed_xer regString hlen _ hn, xerFields_layout _ e he, mask_eq_div_mod]
  · intro e he
    have hn : e.1 ∈ fpscrSubfields := by
      rw [← layouts_disjoint.2.2.2]
      exact List.mem_map.mpr ⟨e, he, rfl⟩
    rw [valueOf_parsed_fpscr regString hlen _ hn, fpscrFields_layout _ e he, mask_eq_div_mod]
  · intro hv
    rw [nonZeroCount_congr xerSubfields _ _ (fun n hn => valueOf_parsed_xer regString hlen n hn),
      hv]
    exact xerFields_single_bit k hk
  · intro hv
    rw [nonZeroCount_congr fpscrSubfields _ _
      (fun n hn => valueOf_parsed_fpscr regString hlen n hn), hv]
    exact fpscrFields_single_bit k hk
  · intro hv
    constructor
    · rw [valueOf_parsed_xer regString hlen _ (by decide), hv]
      exact xerFields_one.1
    · intro n hn hne
      rw [valueOf_parsed_xer regString hlen n hn, hv]
      exact xerFields_one.2 n hn hne
  · intro hv
    constructor
    · rw [valueOf_parsed_fpscr regString hlen _ (by decide), hv]
      exact fpscrFields_one.1
    · intro n hn hne
      rw [valueOf_parsed_fpscr regString hlen n hn, hv]
      exact fpscrFields_one.2 n hn hne

set_option maxRecDepth 1000000 in
/-- Witness of C10: in the dump whose XER and FPSCR slots hold `00000001`,
both integers are `2 ^ 0`, at most one sub-field of each register is non-zero,
`xer_so` and `fpscr_FX` are `1`, and `xer_bytecount` and `fpscr_RN` are `0`. -/
theorem parseRegistersString_status_fields_witness :
    slotValue (sliceAt statusDump (38 * 8) 8) = 2 ^ 0 ∧
    slotValue (sliceAt statusDump (39 * 8) 8) = 2 ^ 0 ∧
    nonZeroCount xerSubfields (parseRegistersString [] statusDump).2 ≤ 1 ∧
    nonZeroCount fpscrSubfields (parseRegistersString [] statusDump).2 ≤ 1 ∧
    valueOf "xer_so" (parseRegistersString [] statusDump).2 = some ['1'] ∧
    valueOf "xer_bytecount" (parseRegistersString [] statusDump).2 = some ['0'] ∧
    valueOf "fpscr_FX" (parseRegistersString [] statusDump).2 = some ['1'] ∧
    valueOf "fpscr_RN" (parseRegistersString [] statusDump).2 = some ['0'] := by
  have hx : slotValue (sliceAt statusDump (38 * 8) 8) = 2 ^ 0 := by decide
  have hf : slotValue (sliceAt statusDump (39 * 8) 8) = 2 ^ 0 := by decide
  have h := parseRegistersString_status_fields statusDump 0 (by decide) (by decide)
  have h' := h.2.2.2.2
  exact ⟨hx, hf, h'.1 hx, h'.2.1 hf, (h'.2.2.1 hx).1,
    (h'.2.2.1 hx).2 "xer_bytecount" (by decide) (by decide), (h'.2.2.2 hf).1,
    (h'.2.2.2 hf).2 "fpscr_RN" (by decide) (by decide)⟩

/-! ## The order of the parsed vector -/

theorem valueNames_parsed (s : List Char) (h : 488 ≤ s.length) :
    valueNames (parseRegistersString [] s).2 = parsedNames := by
  rw [parseRegistersString_ok [] s h]
  simp only [List.nil_append, valueNames, List.map_append]
  have h1 := valueNames_slicedValues s
  have h2 := valueNames_xerFields (slotValue (sliceAt s (38 * 8) 8))
  have h3 := valueNames_crFields (slotValue (sliceAt s (35 * 8) 8))
  have h4 := valueNames_fpscrFields (slotValue (sliceAt s (39 * 8) 8))
  unfold valueNames at h1 h2 h3 h4
  rw [h1, h2, h3, h4]
  simp [parsedNames, slicedNames, derivedNames]

set_option maxRecDepth 1000000 in
theorem parsedNames_perm : parsedNames.Perm catalogNames := by
  decide

set_option maxRecDepth 1000000 in
theorem parsedNames_agree :
    parsedNames.take 35 = catalogNames.take 35 ∧ parsedNames.drop 75 = catalogNames.drop 75 ∧
    parsedNames.length = 133 ∧ catalogNames.length = 133 := by
  decide

set_option maxRecDepth 1000000 in
theorem parsedNames_middle :
    (parsedNames.drop 35).take 5 = ["cr", "lr", "ctr", "xer", "fpscr"] ∧
    (catalogNames.drop 35).take 5 = ["lr", "ctr", "u_reg39", "u_reg40", "u_reg41"] := by
  decide

set_option maxRecDepth 100000 in
theorem syntheticDump_62_length : 488 ≤ (syntheticDump 62).length := by
  decide

/-- C11 (as amended): on a text of at least 488 characters the names of the
appended values are a fixed sequence of 133 names that agrees with the
catalog names position by position on the first 35 positions (`??` to `msr`)
and from position 75 on (the condition register flags and the FPSCR
fields). -/
theorem parseRegistersString_name_order (regString : List Char)
    (hlen : 488 ≤ regString.length) :
    valueNames (parseRegistersString [] regString).2 = parsedNames ∧
    (valueNames (parseRegistersString [] regString).2).take 35 = catalogNames.take 35 ∧
    (valueNames (parseRegistersString [] regString).2).drop 75 = catalogNames.drop 75 ∧
    (valueNames (parseRegistersString [] regString).2).length = catalogNames.length := by
  rw [valueNames_parsed regString hlen]
  exact ⟨rfl, parsedNames_agree.1, parsedNames_agree.2.1,
    parsedNames_agree.2.2.1.trans parsedNames_agree.2.2.2.symm⟩

/-- Witness of C11: the name order of the parse of the synthetic dump of 62
slots. -/
theorem parseRegistersString_name_order_witness :
    488 ≤ (syntheticDump 62).length ∧
    (valueNames (parseRegistersString [] (syntheticDump 62)).2).take 35 =
      catalogNames.take 35 ∧
    (valueNames (parseRegistersString [] (syntheticDump 62)).2).drop 75 =
      catalogNames.drop 75 :=
  ⟨syntheticDump_62_length,
    (parseRegistersString_name_order (syntheticDump 62) syntheticDump_62_length).2.1,
    (parseRegistersString_name_order (syntheticDump 62) syntheticDump_62_length).2.2.1⟩

set_option maxRecDepth 1000000 in
/-- C11 as stated fails: on the synthetic dump of 62 slots the value at
position 35 is named `cr` while the descriptor at position 35 is named `lr`,
so the two name sequences differ. -/
theorem parseRegistersString_reorders :
    488 ≤ (syntheticDump 62).length ∧
    (valueNames (parseRegistersString [] (syntheticDump 62)).2)[35]? = some "cr" ∧
    catalogNames[35]? = some "lr" ∧
    valueNames (parseRegistersString [] (syntheticDump 62)).2 ≠ catalogNames := by
  rw [valueNames_parsed _ syntheticDump_62_length]
  refine ⟨syntheticDump_62_length, by decide, by decide, by decide⟩

/-- C12: on a text of at least 488 characters the names of the appended
values are a permutation of the catalog names, 133 names each, and they are
the same fixed sequence whatever the text holds. -/
theorem parseRegistersString_names_perm (regString : List Char)
    (hlen : 488 ≤ regString.length) :
    (valueNames (parseRegistersString [] regString).2).Perm catalogNames ∧
    (valueNames (parseRegistersString [] regString).2).length = 133 ∧
    catalogNames.length = 133 ∧
    valueNames (parseRegistersString [] regString).2 = parsedNames := by
  rw [valueNames_parsed regString hlen]
  exact ⟨parsedNames_perm, parsedNames_agree.2.2.1, parsedNames_agree.2.2.2, rfl⟩

/-- Witness of C12: the names of the parse of the synthetic dump of 62 slots
are a permutation of the catalog names. -/
theorem parseRegistersString_names_perm_witness :
    488 ≤ (syntheticDump 62).length ∧
    (valueNames (parseRegistersString [] (syntheticDump 62)).2).Perm catalogNames :=
  ⟨syntheticDump_62_length,
    (parseRegistersString_names_perm (syntheticDump 62) syntheticDump_62_length).1⟩

set_option maxRecDepth 1000000 in
/-- C13: on a text of at least 488 characters exactly one appended value
carries the instruction-pointer flag and it is the one and only value named
`pc`; exactly one carries the stack-pointer flag and it is the one and only
value named `sp`. -/
theorem parseRegistersString_pc_sp_tags (regString : List Char)
    (hlen : 488 ≤ regString.length) :
    (parseRegistersString [] regString).2.filter (fun r => r.isPc) =
      [makeRegisterValue "pc" (sliceAt regString (33 * 8) 8) true false] ∧
    (parseRegistersString [] regString).2.filter (fun r => r.name = "pc") =
      [makeRegisterValue "pc" (sliceAt regString (33 * 8) 8) true false] ∧
    (parseRegistersString [] regString).2.filter (fun r => r.isSp) =
      [makeRegisterValue "sp" (sliceAt regString (1 * 8 + 8) 8) false true] ∧
    (parseRegistersString [] regString).2.filter (fun r => r.name = "sp") =
      [makeRegisterValue "sp" (sliceAt regString (1 * 8 + 8) 8) false true] := by
  rw [parseRegistersString_ok [] regString hlen]
  exact ⟨rfl, rfl, rfl, rfl⟩

/-- Witness of C13: the tagged values of the parse of the synthetic dump of
62 slots. -/
theorem parseRegistersString_pc_sp_tags_witness :
    488 ≤ (syntheticDump 62).length ∧
    (parseRegistersString [] (syntheticDump 62)).2.filter (fun r => r.isPc) =
      [makeRegisterValue "pc" (sliceAt (syntheticDump 62) (33 * 8) 8) true false] ∧
    (parseRegistersString [] (syntheticDump 62)).2.filter (fun r => r.isSp) =
      [makeRegisterValue "sp" (sliceAt (syntheticDump 62) (1 * 8 + 8) 8) false true] :=
  ⟨syntheticDump_62_length,
    (parseRegistersString_pc_sp_tags (syntheticDump 62) syntheticDump_62_length).1,
    (parseRegistersString_pc_sp_tags (syntheticDump 62) syntheticDump_62_length).2.2.1⟩

set_option maxRecDepth 1000000 in
/-- C14: the descriptor at index `getInstructionPointerIndex` (33) of the
catalog is named `pc`, and on a text of at least 488 characters the value at
that index of the vector appended to an empty vector is the value named `pc`
that carries the instruction-pointer flag. -/
theorem getInstructionPointerIndex_is_pc (regString : List Char)
    (hlen : 488 ≤ regString.length) :
    getInstructionPointerIndex = 33 ∧
    getRegisterNames[getInstructionPointerIndex]? = some (makeRegisterDescription "pc" 4 true) ∧
    (parseRegistersString [] regString).2[getInstructionPointerIndex]? =
      some (makeRegisterValue "pc" (sliceAt regString (33 * 8) 8) true false) ∧
    (parseRegistersString [] regString).2.filter (fun r => r.isPc) =
      [makeRegisterValue "pc" (sliceAt regString (33 * 8) 8) true false] := by
  rw [parseRegistersString_ok [] regString hlen]
  exact ⟨rfl, by decide, rfl, rfl⟩

/-- Witness of C14: index 33 of the parse of the synthetic dump of 62
slots. -/
theorem getInstructionPointerIndex_is_pc_witness :
    488 ≤ (syntheticDump 62).length ∧
    (parseRegistersString [] (syntheticDump 62)).2[getInstructionPointerIndex]? =
      some (makeRegisterValue "pc" (sliceAt (syntheticDump 62) (33 * 8) 8) true false) :=
  ⟨syntheticDump_62_length,
    (getInstructionPointerIndex_is_pc (syntheticDump 62) syntheticDump_62_length).2.2.1⟩

/-! ## Widths, slots and blocks -/

set_option maxRecDepth 1000000 in
theorem catalog_widths :
    (∀ d ∈ getRegisterNames, d.size = 0 → d.name ∈ derivedNames) ∧
    (∀ d ∈ getRegisterNames, d.name ∈ slicedNames → d.size = 4) ∧
    (getRegisterNames.filter (fun d => d.name ∈ derivedNames ∧ d.size ≠ 0)).map
        (fun d => (d.name, d.size)) =
      [("cr0", 4), ("cr1", 4), ("cr2", 4), ("cr3", 4), ("cr4", 4), ("cr5", 4), ("cr6", 4),
       ("cr7", 4), ("xer_bytecount", 2), ("fpscr_FPRF", 1), ("fpscr_RN", 1)] := by
  decide

theorem sliceAt_append_left (a b : List Char) (pos n : Nat) (h : pos + n ≤ a.length) :
    sliceAt (a ++ b) pos n = sliceAt a pos n := by
  unfold sliceAt
  rw [List.drop_append_of_le_length (by omega),
    List.take_append_of_le_length (by rw [List.length_drop]; omega)]

theorem syntheticDump_split (n : Nat) (h : 62 ≤ n) :
    syntheticDump n = syntheticDump 62 ++ (((List.range (n - 62)).map (62 + ·)).map hex8).flatten := by
  unfold syntheticDump
  have e : n = 62 + (n - 62) := by omega
  conv_lhs => rw [e, List.range_add]
  rw [List.map_append, List.flatten_append]

set_option maxRecDepth 1000000 in
theorem syntheticDump_62_length_eq : (syntheticDump 62).length = 496 := by
  decide

set_option maxRecDepth 1000000 in
theorem syntheticDump_62_gpr : ∀ k < 32,
    (⟨gprName k, k * 8 + 8, false, decide (k = 1)⟩ : SliceStmt) ∈ sliceStatements ∧
    sliceAt (syntheticDump 62) (k * 8 + 8) 8 = hex8 (k + 1) ∧
    hexValue (hex8 (k + 1)) = k + 1 := by
  decide

set_option maxRecDepth 1000000 in
theorem sliceStatements_disjoint :
    ∀ a ∈ sliceStatements, ∀ b ∈ sliceStatements, a.name ≠ b.name →
      (a.pos + 8 ≤ b.pos ∨ b.pos + 8 ≤ a.pos) ∨
      (a.name, b.name) ∈ [("fpscr", "u_reg39"), ("u_reg39", "fpscr")] := by
  decide

/-- C15 (as amended): on a text of at least 488 characters the appended
values are the sliced ones followed by the ones computed by shift and mask;
every descriptor of width 0 belongs to a computed value, and every sliced
register has width 4; but the computed registers `cr0` to `cr7` (width 4),
`xer_bytecount` (2), `fpscr_FPRF` (1) and `fpscr_RN` (1) have a width other
than 0. -/
theorem catalog_width_zero_derived (regString : List Char)
    (hlen : 488 ≤ regString.length) :
    valueNames (parseRegistersString [] regString).2 = slicedNames ++ derivedNames ∧
    (∀ st ∈ sliceStatements, valueOf st.name (parseRegistersString [] regString).2 =
      some (sliceAt regString st.pos 8)) ∧
    (∀ d ∈ getRegisterNames, d.size = 0 → d.name ∈ derivedNames) ∧
    (∀ d ∈ getRegisterNames, d.name ∈ slicedNames → d.size = 4) ∧
    (getRegisterNames.filter (fun d => d.name ∈ derivedNames ∧ d.size ≠ 0)).map
        (fun d => (d.name, d.size)) =
      [("cr0", 4), ("cr1", 4), ("cr2", 4), ("cr3", 4), ("cr4", 4), ("cr5", 4), ("cr6", 4),
       ("cr7", 4), ("xer_bytecount", 2), ("fpscr_FPRF", 1), ("fpscr_RN", 1)] :=
  ⟨valueNames_parsed regString hlen,
    fun st hst => valueOf_parsed_slice regString hlen st hst,
    catalog_widths.1, catalog_widths.2.1, catalog_widths.2.2⟩

/-- Witness of C15: the parse of the synthetic dump of 62 slots appends the
sliced names, then the computed names. -/
theorem catalog_width_zero_derived_witness :
    488 ≤ (syntheticDump 62).length ∧
    valueNames (parseRegistersString [] (syntheticDump 62)).2 = slicedNames ++ derivedNames :=
  ⟨syntheticDump_62_length,
    (catalog_width_zero_derived (syntheticDump 62) syntheticDump_62_length).1⟩

set_option maxRecDepth 1000000 in
/-- C15 as stated fails: the catalog gives width 4 to `cr0`, which is not
sliced but computed from the condition register; with `00000008` in that slot
its value is the one character `8`. -/
theorem catalog_cr0_width_not_zero :
    makeRegisterDescription "cr0" 4 true ∈ getRegisterNames ∧
    "cr0" ∈ derivedNames ∧ "cr0" ∉ slicedNames ∧
    488 ≤ crDump.length ∧
    valueOf "cr0" (parseRegistersString [] crDump).2 = some ['8'] := by
  have hlen : 488 ≤ crDump.length := by decide
  refine ⟨by decide, by decide, by decide, hlen, ?_⟩
  rw [valueOf_parsed_cr crDump hlen "cr0" (by decide)]
  decide

/-- C16 (as amended): on the synthetic dump of `n` slots, `62 ≤ n`, in which
slot `i` holds the 8-digit hex encoding of `i`, the call returns `SUCCESS`
and the value named for general-purpose register `k` (`sp` for `k = 1`) is the
text of slot `k + 1`, which denotes `k + 1`: slot 0 belongs to the name
`??`. -/
theorem parseRegistersString_synthetic_gpr (n k : Nat) (hn : 62 ≤ n) (hk : k < 32) :
    (parseRegistersString [] (syntheticDump n)).1 = .returned .SUCCESS ∧
    valueOf (gprName k) (parseRegistersString [] (syntheticDump n)).2 = some (hex8 (k + 1)) ∧
    hexValue (hex8 (k + 1)) = k + 1 := by
  have hsplit := syntheticDump_split n hn
  have hlen : 488 ≤ (syntheticDump n).length := by
    rw [hsplit, List.length_append, syntheticDump_62_length_eq]
    omega
  obtain ⟨hst, hslice, hval⟩ := syntheticDump_62_gpr k hk
  refine ⟨?_, ?_, hval⟩
  · rw [parseRegistersString_ok [] _ hlen]
  · have h := valueOf_parsed_slice (syntheticDump n) hlen _ hst
    simp only at h
    rw [h, hsplit, sliceAt_append_left _ _ _ _ (by rw [syntheticDump_62_length_eq]; omega),
      hslice]

set_option maxRecDepth 1000000 in
/-- Witness of C16: on the synthetic dump of 62 slots the value named `r2` is
`00000003` and the value named `sp` is `00000002`. -/
theorem parseRegistersString_synthetic_gpr_witness :
    valueOf "r2" (parseRegistersString [] (syntheticDump 62)).2 =
      some ['0', '0', '0', '0', '0', '0', '0', '3'] ∧
    valueOf "sp" (parseRegistersString [] (syntheticDump 62)).2 =
      some ['0', '0', '0', '0', '0', '0', '0', '2'] :=
  ⟨(parseRegistersString_synthetic_gpr 62 2 (by decide) (by decide)).2.1.trans (by decide),
    (parseRegistersString_synthetic_gpr 62 1 (by decide) (by decide)).2.1.trans (by decide)⟩

set_option maxRecDepth 1000000 in
/-- C16 as stated fails: on the synthetic dump of 40 slots the call raises
`std::out_of_range`, and on the synthetic dump of 62 slots the value named
`r2` denotes 3, not 2, and the value named `sp` denotes 2, not 1. -/
theorem parseRegistersString_synthetic_off_by_one :
    (syntheticDump 40).length = 320 ∧
    (parseRegistersString [] (syntheticDump 40)).1 = .thrown .out_of_range ∧
    (∃ v, valueOf "r2" (parseRegistersString [] (syntheticDump 62)).2 = some v ∧
      hexValue v = 3) ∧
    (∃ v, valueOf "sp" (parseRegistersString [] (syntheticDump 62)).2 = some v ∧
      hexValue v = 2) := by
  have h40 : (syntheticDump 40).length = 320 := by decide
  have hr2 : (⟨"r2", 2 * 8 + 8, false, false⟩ : SliceStmt) ∈ sliceStatements := by decide
  have hsp : (⟨"sp", 1 * 8 + 8, false, true⟩ : SliceStmt) ∈ sliceStatements := by decide
  refine ⟨h40, (parseRegistersString_short [] _ (by omega)).1,
    ⟨_, valueOf_parsed_slice _ syntheticDump_62_length _ hr2, by decide⟩,
    ⟨_, valueOf_parsed_slice _ syntheticDump_62_length _ hsp, by decide⟩⟩

set_option maxRecDepth 1000000 in
/-- C18 (as amended): on a text of at least 488 characters the appended
names are the 63 sliced names, then the XER sub-fields, then the condition
register groups and flags, then the FPSCR sub-fields, each block in its fixed
order; the parents `cr`, `xer` and `fpscr` sit at positions 35, 38 and 39 of
the sliced names and the blocks start at positions 67, 63 and 107. -/
theorem parseRegistersString_subfield_blocks (regString : List Char)
    (hlen : 488 ≤ regString.length) :
    valueNames (parseRegistersString [] regString).2 =
      slicedNames ++ (xerSubfields ++ crSubfields ++ fpscrSubfields) ∧
    slicedNames.length = 63 ∧ xerSubfields.length = 4 ∧ crSubfields.length = 40 ∧
    fpscrSubfields.length = 26 ∧
    slicedNames[35]? = some "cr" ∧ slicedNames[38]? = some "xer" ∧
    slicedNames[39]? = some "fpscr" := by
  rw [valueNames_parsed regString hlen]
  exact ⟨rfl, by decide, by decide, by decide, by decide, by decide, by decide, by decide⟩

/-- Witness of C18: the block order in the parse of the synthetic dump of 62
slots. -/
theorem parseRegistersString_subfield_blocks_witness :
    488 ≤ (syntheticDump 62).length ∧
    valueNames (parseRegistersString [] (syntheticDump 62)).2 =
      slicedNames ++ (xerSubfields ++ crSubfields ++ fpscrSubfields) :=
  ⟨syntheticDump_62_length,
    (parseRegistersString_subfield_blocks (syntheticDump 62) syntheticDump_62_length).1⟩

set_option maxRecDepth 1000000 in
/-- C18 as stated fails: in the parse of the synthetic dump of 62 slots the
name after `xer` is `fpscr`, the name after `cr` is `lr`, the name after
`fpscr` is `u_reg39`, and `xer_so` comes at position 63. -/
theorem parseRegistersString_subfields_not_adjacent :
    488 ≤ (syntheticDump 62).length ∧
    ((valueNames (parseRegistersString [] (syntheticDump 62)).2).drop 35).take 6 =
      ["cr", "lr", "ctr", "xer", "fpscr", "u_reg39"] ∧
    (valueNames (parseRegistersString [] (syntheticDump 62)).2)[63]? = some "xer_so" := by
  rw [valueNames_parsed _ syntheticDump_62_length]
  exact ⟨syntheticDump_62_length, by decide, by decide⟩

/-- C20, the failing case: on a text of at least 488 characters the names
`fpscr` and `u_reg39` are both given the characters at positions 312 to 319;
any two other sliced names read ranges of 8 characters that do not
overlap. -/
theorem parseRegistersString_slot_39_twice (regString : List Char)
    (hlen : 488 ≤ regString.length) :
    valueOf "fpscr" (parseRegistersString [] regString).2 =
      some (sliceAt regString (39 * 8) 8) ∧
    valueOf "u_reg39" (parseRegistersString [] regString).2 =
      some (sliceAt regString (39 * 8) 8) ∧
    (∀ a ∈ sliceStatements, ∀ b ∈ sliceStatements, a.name ≠ b.name →
      (a.pos + 8 ≤ b.pos ∨ b.pos + 8 ≤ a.pos) ∨
      (a.name, b.name) ∈ [("fpscr", "u_reg39"), ("u_reg39", "fpscr")]) := by
  have hf : (⟨"fpscr", 39 * 8, false, false⟩ : SliceStmt) ∈ sliceStatements := by decide
  have hu : (⟨"u_reg39", 39 * 8, false, false⟩ : SliceStmt) ∈ sliceStatements := by decide
  exact ⟨valueOf_parsed_slice regString hlen _ hf, valueOf_parsed_slice regString hlen _ hu,
    sliceStatements_disjoint⟩

set_option maxRecDepth 1000000 in
/-- Witness of C20's failing case: in the parse of the synthetic dump of 62
slots both `fpscr` and `u_reg39` are `00000027`. -/
theorem parseRegistersString_slot_39_twice_witness :
    valueOf "fpscr" (parseRegistersString [] (syntheticDump 62)).2 =
      some ['0', '0', '0', '0', '0', '0', '2', '7'] ∧
    valueOf "u_reg39" (parseRegistersString [] (syntheticDump 62)).2 =
      some ['0', '0', '0', '0', '0', '0', '2', '7'] :=
  ⟨(parseRegistersString_slot_39_twice (syntheticDump 62)
      syntheticDump_62_length).1.trans (by decide),
    (parseRegistersString_slot_39_twice (syntheticDump 62)
      syntheticDump_62_length).2.1.trans (by decide)⟩

/-! ## More facts about the scanning loop -/

theorem stringAt_eq_ok (s : List Char) (i : Nat) (c : Char) :
    stringAt s i = .ok c ↔ s[i]? = some c := by
  unfold stringAt
  cases h : s[i]? <;> simp

theorem loopBody_of_copy (encoded : List Char) (st : LoopState) (c : Char)
    (h : encoded[st.i]? = some c) (hm : c ≠ MARKER) :
    loopBody encoded st = .next ⟨st.i + 1, st.expanded ++ c_str [c]⟩ := by
  simp [loopBody, stringAt, h, hm]

theorem loopBody_of_run (encoded : List Char) (st : LoopState) (r c0 c1 : Char)
    (hm : encoded[st.i]? = some MARKER) (h0 : st.i ≠ 0)
    (hr : encoded[st.i - 1]? = some r) (h1 : encoded[st.i + 1]? = some c0)
    (h2 : encoded[st.i + 2]? = some c1) (hrep : 0 ≠ repeatCount c0 c1) :
    loopBody encoded st =
      .next ⟨st.i + 2 + 1, appendTimes (repeatCount c0 c1) (c_str [r]) st.expanded⟩ := by
  have hlen : st.i + 2 < encoded.length := by
    by_contra hge
    rw [List.getElem?_eq_none (by omega)] at h2
    cases h2
  have hl : ¬ encoded.length - 2 = st.i := by omega
  have h0' : ¬ 0 = st.i := fun e => h0 e.symm
  simp [loopBody, stringAt, hm, hl, h0', hr, h1, h2, hrep]

/-- The two ways the loop body can hand over to the next iteration. -/
theorem loopBody_next_cases (encoded : List Char) (st st' : LoopState)
    (h : loopBody encoded st = .next st') :
    (∃ c, encoded[st.i]? = some c ∧ c ≠ MARKER ∧
      st' = ⟨st.i + 1, st.expanded ++ c_str [c]⟩) ∨
    (encoded[st.i]? = some MARKER ∧ st.i ≠ 0 ∧
      ∃ r c0 c1, encoded[st.i - 1]? = some r ∧ encoded[st.i + 1]? = some c0 ∧
        encoded[st.i + 2]? = some c1 ∧ 0 ≠ repeatCount c0 c1 ∧
        st' = ⟨st.i + 2 + 1, appendTimes (repeatCount c0 c1) (c_str [r]) st.expanded⟩) := by
  unfold loopBody at h
  split at h
  · cases h
  · rename_i c hc
    rw [stringAt_eq_ok] at hc
    split at h
    · rename_i hcm
      subst hcm
      split at h
      · cases h
      · rename_i h0
        split at h
        · cases h
        · split at h
          · cases h
          · rename_i r hr
            rw [stringAt_eq_ok] at hr
            split at h
            · cases h
            · rename_i c0 h1
              rw [stringAt_eq_ok] at h1
              split at h
              · cases h
              · rename_i c1 h2
                rw [stringAt_eq_ok] at h2
                split at h
                · cases h
                · rename_i hrep
                  cases h
                  exact Or.inr ⟨hc, fun e => h0 e.symm, r, c0, c1, hr, h1, h2, hrep, rfl⟩
    · rename_i hcm
      cases h
      exact Or.inl ⟨c, hc, hcm, rfl⟩

theorem appendTimes_length (n : Nat) (s expanded : List Char) :
    (appendTimes n s expanded).length = expanded.length + n * s.length := by
  induction n generalizing expanded with
  | zero => simp [appendTimes]
  | succ n ih =>
    rw [appendTimes, ih, List.length_append, Nat.succ_mul]
    omega

theorem appendTimes_append (n : Nat) (s p expanded : List Char) :
    appendTimes n s (p ++ expanded) = p ++ appendTimes n s expanded := by
  induction n generalizing expanded with
  | zero => simp [appendTimes]
  | succ n ih =>
    rw [appendTimes, appendTimes, List.append_assoc, ih]

theorem c_str_single_length (c : Char) : (c_str [c]).length ≤ 1 := by
  by_cases h : c = NUL
  · subst h
    simp [c_str]
  · simp [c_str, h]

theorem loopBody_next_bound (encoded : List Char) (st st' : LoopState)
    (h : loopBody encoded st = .next st') : st.i < st'.i ∧ st'.i ≤ encoded.length := by
  rcases loopBody_next_cases encoded st st' h with ⟨c, hc, _, rfl⟩ | ⟨_, _, r, c0, c1, _, _, h2, _, rfl⟩
  · have hlt : st.i < encoded.length := by
      by_contra hge
      rw [List.getElem?_eq_none (by omega)] at hc
      cases hc
    exact ⟨by simp, by simpa using hlt⟩
  · have hlt : st.i + 2 < encoded.length := by
      by_contra hge
      rw [List.getElem?_eq_none (by omega)] at h2
      cases h2
    exact ⟨by simp only; omega, by simp only; omega⟩

theorem getElem?_append_left_of_some (s t : List Char) (i : Nat) (c : Char)
    (h : s[i]? = some c) : (s ++ t)[i]? = some c := by
  have hlt : i < s.length := by
    by_contra hge
    rw [List.getElem?_eq_none (by omega)] at h
    cases h
  rw [List.getElem?_append_left hlt, h]

theorem loopBody_append_left (s t : List Char) (st st' : LoopState)
    (h : loopBody s st = .next st') : loopBody (s ++ t) st = .next st' := by
  rcases loopBody_next_cases s st st' h with
    ⟨c, hc, hm, rfl⟩ | ⟨hm, h0, r, c0, c1, hr, h1, h2, hrep, rfl⟩
  · exact loopBody_of_copy (s ++ t) st c (getElem?_append_left_of_some s t _ c hc) hm
  · exact loopBody_of_run (s ++ t) st r c0 c1 (getElem?_append_left_of_some s t _ _ hm) h0
      (getElem?_append_left_of_some s t _ _ hr) (getElem?_append_left_of_some s t _ _ h1)
      (getElem?_append_left_of_some s t _ _ h2) hrep

theorem loopBody_append_shift (s t p : List Char) (st st' : LoopState)
    (h : loopBody t st = .next st') :
    loopBody (s ++ t) ⟨s.length + st.i, p ++ st.expanded⟩ =
      .next ⟨s.length + st'.i, p ++ st'.expanded⟩ := by
  rcases loopBody_next_cases t st st' h with
    ⟨c, hc, hm, rfl⟩ | ⟨hm, h0, r, c0, c1, hr, h1, h2, hrep, rfl⟩
  · have := loopBody_of_copy (s ++ t) ⟨s.length + st.i, p ++ st.expanded⟩ c
      (by rw [getElem?_append_offset]; exact hc) hm
    rw [this]
    simp [Nat.add_assoc]
  · have hsub : s.length + st.i - 1 = s.length + (st.i - 1) := by omega
    have := loopBody_of_run (s ++ t) ⟨s.length + st.i, p ++ st.expanded⟩ r c0 c1
      (by rw [getElem?_append_offset]; exact hm) (by simp only; omega)
      (by simp only; rw [hsub, getElem?_append_offset]; exact hr)
      (by simp only; rw [Nat.add_assoc, getElem?_append_offset]; exact h1)
      (by simp only; rw [Nat.add_assoc, getElem?_append_offset]; exact h2) hrep
    rw [this, appendTimes_append]
    simp [Nat.add_assoc]

theorem scanLoop_append_left (s t : List Char) (out : List Char) :
    ∀ (n : Nat) (st : LoopState), s.length - st.i = n → st.i ≤ s.length →
      scanLoop s st = .finished out →
      scanLoop (s ++ t) st = scanLoop (s ++ t) ⟨s.length, out⟩ := by
  intro n
  induction n using Nat.strong_induction_on with
  | _ n ih =>
    intro st hn hle hfin
    by_cases hlt : st.i < s.length
    · rw [scanLoop_unfold, if_pos hlt] at hfin
      cases hb : loopBody s st with
      | next st' =>
        rw [hb] at hfin
        simp only at hfin
        have hbound := loopBody_next_bound s st st' hb
        rw [scanLoop_unfold (s ++ t) st, if_pos (by rw [List.length_append]; omega),
          loopBody_append_left s t st st' hb]
        simp only
        exact ih (s.length - st'.i) (by omega) st' rfl hbound.2 hfin
      | returnFalse => rw [hb] at hfin; cases hfin
      | thrown e => rw [hb] at hfin; cases hfin
    · rw [scanLoop_at_end s st (by omega)] at hfin
      cases hfin
      have hi : st.i = s.length := by omega
      cases st
      simp only at hi
      subst hi
      rfl

theorem scanLoop_append_shift (s t p : List Char) (out : List Char) :
    ∀ (n : Nat) (st : LoopState), t.length - st.i = n →
      scanLoop t st = .finished out →
      scanLoop (s ++ t) ⟨s.length + st.i, p ++ st.expanded⟩ = .finished (p ++ out) := by
  intro n
  induction n using Nat.strong_induction_on with
  | _ n ih =>
    intro st hn hfin
    by_cases hlt : st.i < t.length
    · rw [scanLoop_unfold, if_pos hlt] at hfin
      cases hb : loopBody t st with
      | next st' =>
        rw [hb] at hfin
        simp only at hfin
        have hbound := loopBody_next_bound t st st' hb
        rw [scanLoop_unfold (s ++ t), if_pos (by simp only [List.length_append]; omega),
          loopBody_append_shift s t p st st' hb]
        simp only
        exact ih (t.length - st'.i) (by omega) st' rfl hfin
      | returnFalse => rw [hb] at hfin; cases hfin
      | thrown e => rw [hb] at hfin; cases hfin
    · rw [scanLoop_at_end t st (by omega)] at hfin
      cases hfin
      rw [scanLoop_at_end _ _ (by simp only [List.length_append]; omega)]

theorem RunlengthDecode_true_iff (encoded out : List Char) :
    RunlengthDecode encoded = (.returned true, out) ↔
      scanLoop encoded ⟨0, []⟩ = .finished out := by
  unfold RunlengthDecode
  cases scanLoop encoded ⟨0, []⟩ <;> simp

/-- C19: when decoding `s` returns true with `s'` and decoding `t` returns true
with `t'`, decoding `s ++ t` returns true with `s' ++ t'`. -/
theorem RunlengthDecode_append (s t s' t' : List Char)
    (hs : RunlengthDecode s = (.returned true, s'))
    (ht : RunlengthDecode t = (.returned true, t')) :
    RunlengthDecode (s ++ t) = (.returned true, s' ++ t') := by
  rw [RunlengthDecode_true_iff] at hs ht ⊢
  rw [scanLoop_append_left s t s' _ ⟨0, []⟩ rfl (Nat.zero_le _) hs]
  have h := scanLoop_append_shift s t s' t' _ ⟨0, []⟩ rfl ht
  simpa using h

/-- Witness of C19: `a*03` decodes to `aaaa`, `b*02` decodes to `bbb`, and
their concatenation decodes to `aaaabbb`. -/
theorem RunlengthDecode_append_witness :
    RunlengthDecode (['a', MARKER, '0', '3'] ++ ['b', MARKER, '0', '2']) =
      (.returned true, ['a', 'a', 'a', 'a'] ++ ['b', 'b', 'b']) :=
  RunlengthDecode_append ['a', MARKER, '0', '3'] ['b', MARKER, '0', '2'] _ _
    (RunlengthDecode_of_finished _ 2 ⟨4, ['a', 'a', 'a', 'a']⟩ (by decide) (by decide))
    (RunlengthDecode_of_finished _ 2 ⟨4, ['b', 'b', 'b']⟩ (by decide) (by decide))

/-! ## The size of the repeat count -/

theorem accumHex_lt (l : List Char) (acc : Nat) :
    accumHex l acc < (acc + 1) * 16 ^ l.length := by
  induction l generalizing acc with
  | nil => simp [accumHex]
  | cons c cs ih =>
    rw [accumHex]
    have hpos : 0 < 16 ^ cs.length := by positivity
    cases hd : hexDigitValue c with
    | none =>
      simp only [List.length_cons, Nat.pow_succ]
      calc acc < acc + 1 := Nat.lt_succ_self _
        _ ≤ (acc + 1) * (16 ^ cs.length * 16) :=
          Nat.le_mul_of_pos_right _ (Nat.mul_pos hpos (by decide))
    | some d =>
      have hd15 := hexDigitValue_le c d hd
      simp only [List.length_cons]
      calc accumHex cs (acc * 16 + d) < (acc * 16 + d + 1) * 16 ^ cs.length := ih _
        _ ≤ ((acc + 1) * 16) * 16 ^ cs.length := Nat.mul_le_mul_right _ (by omega)
        _ = (acc + 1) * 16 ^ (cs.length + 1) := by rw [Nat.pow_succ]; ring

theorem skipHexMark_length (l : List Char) : (skipHexMark l).length ≤ l.length := by
  match l with
  | [] => simp [skipHexMark]
  | [_] => simp [skipHexMark]
  | c0 :: c1 :: cs =>
    rw [skipHexMark]
    split
    · simp only [List.length_cons]; omega
    · exact Nat.le_refl _

theorem takeSign_length (l : List Char) : (takeSign l).2.length ≤ l.length := by
  cases l with
  | nil => simp [takeSign]
  | cons c cs =>
    rw [takeSign]
    split
    · simp
    · split <;> simp

theorem takeSign_true (l : List Char) (h : (takeSign l).1 = true) :
    ∃ rest, l = '-' :: rest ∧ (takeSign l).2 = rest := by
  cases l with
  | nil => simp [takeSign] at h
  | cons c cs =>
    rw [takeSign] at h ⊢
    split at h
    · rename_i hc
      subst hc
      exact ⟨cs, rfl, by simp⟩
    · split at h <;> simp at h

theorem c_str_pair_length (c0 c1 : Char) : (c_str [c0, c1]).length ≤ 2 := by
  unfold c_str
  have := List.takeWhile_sublist (fun c => c != NUL) (l := [c0, c1])
  simpa using this.length_le

theorem dropWhile_c_str_pair (c0 c1 : Char) :
    ((c_str [c0, c1]).dropWhile isspace).length ≤ 1 ∨
    ∃ tail, (c_str [c0, c1]).dropWhile isspace = c0 :: tail := by
  by_cases h0 : c0 = NUL
  · left
    subst h0
    simp [c_str]
  · have hc : c_str [c0, c1] = c0 :: c_str [c1] := by
      simp [c_str, List.takeWhile_cons, h0]
    rw [hc]
    by_cases hs : isspace c0 = true
    · left
      rw [List.dropWhile_cons, if_pos hs]
      exact Nat.le_trans (List.dropWhile_sublist _).length_le (c_str_single_length c1)
    · right
      rw [List.dropWhile_cons, if_neg hs]
      exact ⟨_, rfl⟩

theorem strtoul_pair_le (c0 c1 : Char) (h : c0 ≠ '-') : strtoul (c_str [c0, c1]) ≤ 255 := by
  have hlen : ((c_str [c0, c1]).dropWhile isspace).length ≤ 2 :=
    Nat.le_trans (List.dropWhile_sublist _).length_le (c_str_pair_length c0 c1)
  have hshape := dropWhile_c_str_pair c0 c1
  unfold strtoul
  generalize (c_str [c0, c1]).dropWhile isspace = l at hlen hshape
  have hv : accumHex (skipHexMark (takeSign l).2) 0 < 256 := by
    have h1 := accumHex_lt (skipHexMark (takeSign l).2) 0
    have h2 : (skipHexMark (takeSign l).2).length ≤ 2 :=
      Nat.le_trans (skipHexMark_length _) (Nat.le_trans (takeSign_length l) hlen)
    have h3 : 16 ^ (skipHexMark (takeSign l).2).length ≤ 16 ^ 2 :=
      Nat.pow_le_pow_right (by decide) h2
    omega
  have hU : ¬ accumHex (skipHexMark (takeSign l).2) 0 > ULONG_MAX := by
    have : (255 : Nat) < ULONG_MAX := by decide
    omega
  simp only [hU, if_false]
  split
  · rename_i hsign
    obtain ⟨rest, hl, hrest⟩ := takeSign_true l hsign
    have hnil : rest = [] := by
      rcases hshape with hshort | ⟨tail, htail⟩
      · rw [hl] at hshort
        simp only [List.length_cons] at hshort
        exact List.eq_nil_of_length_eq_zero (by omega)
      · rw [hl] at htail
        injection htail with hhead _
        exact absurd hhead.symm h
    rw [hrest, hnil]
    decide
  · omega

theorem repeatCount_le (c0 c1 : Char) (h : c0 ≠ '-') : repeatCount c0 c1 ≤ 255 := by
  unfold repeatCount toUnsignedInt
  exact Nat.le_trans (Nat.mod_le _ _) (strtoul_pair_le c0 c1 h)

theorem repeatCount_minus_one : repeatCount '-' '1' = 4294967295 := by
  decide

theorem stateAfter_succ_inv (encoded : List Char) (k : Nat) (st' : LoopState)
    (h : stateAfter encoded (k + 1) = some st') :
    ∃ st, stateAfter encoded k = some st ∧ st.i < encoded.length ∧
      loopBody encoded st = .next st' := by
  rw [stateAfter] at h
  split at h
  · cases h
  · rename_i st hst
    split at h
    · rename_i hlt
      split at h
      · rename_i st'' hb
        cases h
        exact ⟨st, hst, hlt, hb⟩
      · cases h
    · cases h

theorem stateAfter_succ_of (encoded : List Char) (k : Nat) (st st' : LoopState)
    (h : stateAfter encoded k = some st) (hlt : st.i < encoded.length)
    (hb : loopBody encoded st = .next st') :
    stateAfter encoded (k + 1) = some st' := by
  rw [stateAfter, h]
  simp only [hlt, if_true, hb]

theorem scanLoop_finished_reach (encoded out : List Char) :
    ∀ (n : Nat) (st : LoopState) (k : Nat), encoded.length - st.i = n →
      stateAfter encoded k = some st → scanLoop encoded st = .finished out →
      ∃ k' st', stateAfter encoded k' = some st' ∧ encoded.length ≤ st'.i ∧
        st'.expanded = out := by
  intro n
  induction n using Nat.strong_induction_on with
  | _ n ih =>
    intro st k hn hst hfin
    by_cases hlt : st.i < encoded.length
    · rw [scanLoop_unfold, if_pos hlt] at hfin
      cases hb : loopBody encoded st with
      | next st' =>
        rw [hb] at hfin
        simp only at hfin
        have hbound := loopBody_next_bound encoded st st' hb
        exact ih (encoded.length - st'.i) (by omega) st' (k + 1) rfl
          (stateAfter_succ_of encoded k st st' hst hlt hb) hfin
      | returnFalse => rw [hb] at hfin; cases hfin
      | thrown e => rw [hb] at hfin; cases hfin
    · rw [scanLoop_at_end encoded st (by omega)] at hfin
      cases hfin
      exact ⟨k, st, hst, by omega, rfl⟩

theorem stateAfter_length_bound (encoded : List Char)
    (hneg : ∀ k st, stateAfter encoded k = some st → encoded[st.i]? = some MARKER →
      encoded[st.i + 1]? ≠ some '-') :
    ∀ k st, stateAfter encoded k = some st →
      st.expanded.length ≤ 85 * st.i ∧ st.i ≤ encoded.length := by
  intro k
  induction k with
  | zero =>
    intro st h
    simp only [stateAfter, Option.some.injEq] at h
    subst h
    simp
  | succ k ih =>
    intro st' h
    obtain ⟨st, hst, hlt, hb⟩ := stateAfter_succ_inv encoded k st' h
    have hprev := ih st hst
    have hbound := loopBody_next_bound encoded st st' hb
    refine ⟨?_, hbound.2⟩
    rcases loopBody_next_cases encoded st st' hb with
      ⟨c, _, _, rfl⟩ | ⟨hm, _, r, c0, c1, _, h1, _, _, rfl⟩
    · have := c_str_single_length c
      simp only [List.length_append]
      omega
    · have hc0 : c0 ≠ '-' := by
        intro e
        subst e
        exact hneg k st hst hm h1
      have hrep := repeatCount_le c0 c1 hc0
      have hr := c_str_single_length r
      have hmul : repeatCount c0 c1 * (c_str [r]).length ≤ 255 * 1 :=
        Nat.mul_le_mul hrep hr
      simp only [appendTimes_length]
      omega

/-- C17 (as amended): for every marker the scan reaches and gets past, the
string `to_repeat` is appended `repeat` times, where `repeat` is at least 1
and, unless the first count character is a minus sign, at most 255; and when
no marker the scan reaches has a minus sign as first count character, the
output of a call that returns true is at most 85 times as long as the
input. -/
theorem RunlengthDecode_count_bound (encoded : List Char) :
    (∀ k st st', stateAfter encoded k = some st → encoded[st.i]? = some MARKER →
      stateAfter encoded (k + 1) = some st' →
      ∃ r c0 c1, encoded[st.i - 1]? = some r ∧ encoded[st.i + 1]? = some c0 ∧
        encoded[st.i + 2]? = some c1 ∧
        st'.expanded = appendTimes (repeatCount c0 c1) (c_str [r]) st.expanded ∧
        1 ≤ repeatCount c0 c1 ∧ (c0 ≠ '-' → repeatCount c0 c1 ≤ 255)) ∧
    ((∀ k st, stateAfter encoded k = some st → encoded[st.i]? = some MARKER →
        encoded[st.i + 1]? ≠ some '-') →
      ∀ out, RunlengthDecode encoded = (.returned true, out) →
        out.length ≤ 85 * encoded.length) := by
  constructor
  · intro k st st' hst hm hnext
    obtain ⟨st0, hst0, _, hb⟩ := stateAfter_succ_inv encoded k st' hnext
    rw [hst] at hst0
    cases hst0
    rcases loopBody_next_cases encoded st st' hb with
      ⟨c, hc, hcm, _⟩ | ⟨_, _, r, c0, c1, hr, h1, h2, hrep, rfl⟩
    · rw [hm] at hc
      cases hc
      exact absurd rfl hcm
    · exact ⟨r, c0, c1, hr, h1, h2, rfl, by omega, repeatCount_le c0 c1⟩
  · intro hneg out hdec
    rw [RunlengthDecode_true_iff] at hdec
    obtain ⟨k', st', hst', hend, hout⟩ :=
      scanLoop_finished_reach encoded out _ ⟨0, []⟩ 0 rfl rfl hdec
    have hb := stateAfter_length_bound encoded hneg k' st' hst'
    rw [← hout]
    have : st'.i = encoded.length := by omega
    rw [← this]
    exact hb.1

theorem RunlengthDecode_single_run (c c0 c1 : Char) (hcm : c ≠ MARKER) (hcn : c ≠ NUL)
    (hrep : 0 ≠ repeatCount c0 c1) :
    RunlengthDecode [c, MARKER, c0, c1] =
      (.returned true, [c] ++ List.replicate (repeatCount c0 c1) c) := by
  have hb0 := loopBody_of_copy [c, MARKER, c0, c1] ⟨0, []⟩ c rfl hcm
  have hst : stateAfter [c, MARKER, c0, c1] 1 = some ⟨1, [c]⟩ := by
    have := stateAfter_succ_of [c, MARKER, c0, c1] 0 ⟨0, []⟩ _ rfl (by simp) hb0
    rw [this, c_str_single c hcn]
    rfl
  have hb := loopBody_of_run [c, MARKER, c0, c1] ⟨1, [c]⟩ c c0 c1 rfl (by simp) rfl rfl rfl hrep
  have hst2 := stateAfter_succ_of _ 1 _ _ hst (by simp) hb
  rw [RunlengthDecode_of_finished _ 2 _ hst2 (by simp), c_str_single c hcn, appendTimes_single]

theorem replicate_cons_length (n : Nat) (c : Char) :
    ([c] ++ List.replicate n c).length = n + 1 := by
  rw [List.length_append, List.length_replicate, List.length_singleton, Nat.add_comm]

theorem RunlengthDecode_double_run (c c0 c1 d0 d1 : Char) (hcm : c ≠ MARKER) (hcn : c ≠ NUL)
    (hrep1 : 0 ≠ repeatCount c0 c1) (hrep2 : 0 ≠ repeatCount d0 d1) :
    RunlengthDecode [c, MARKER, c0, c1, MARKER, d0, d1] =
      (.returned true,
        appendTimes (repeatCount d0 d1) (c_str [c1])
          (appendTimes (repeatCount c0 c1) [c] [c])) := by
  have hb0 := loopBody_of_copy [c, MARKER, c0, c1, MARKER, d0, d1] ⟨0, []⟩ c rfl hcm
  have hst1 : stateAfter [c, MARKER, c0, c1, MARKER, d0, d1] 1 = some ⟨1, [c]⟩ := by
    have := stateAfter_succ_of [c, MARKER, c0, c1, MARKER, d0, d1] 0 ⟨0, []⟩ _ rfl (by simp) hb0
    rw [this, c_str_single c hcn]
    rfl
  have hb1 := loopBody_of_run [c, MARKER, c0, c1, MARKER, d0, d1] ⟨1, [c]⟩ c c0 c1
    rfl (by simp) rfl rfl rfl hrep1
  rw [c_str_single c hcn] at hb1
  have hst2 := stateAfter_succ_of _ 1 _ _ hst1 (by simp) hb1
  have hb2 := loopBody_of_run [c, MARKER, c0, c1, MARKER, d0, d1]
    ⟨1 + 2 + 1, appendTimes (repeatCount c0 c1) [c] [c]⟩ c1 d0 d1
    rfl (by simp) rfl rfl rfl hrep2
  have hst3 := stateAfter_succ_of _ 2 _ _ hst2 (by simp) hb2
  exact RunlengthDecode_of_finished _ 3 _ hst3 (by simp)

/-- C17 as stated fails: the count characters `-1` give `repeat` the value
4294967295, so `a*-1` is decoded, with return value true, to `a` followed by
4294967295 more copies, which is longer than 64 times the 4 characters of the
input; and with hex digits only, `a*ff*ff` (7 characters) is decoded to 511
characters, more than 64 times 7. -/
theorem RunlengthDecode_count_unbounded :
    repeatCount '-' '1' = 4294967295 ∧
    RunlengthDecode ['a', MARKER, '-', '1'] =
      (.returned true, ['a'] ++ List.replicate 4294967295 'a') ∧
    (['a'] ++ List.replicate 4294967295 'a').length = 4294967295 + 1 ∧
    64 * ['a', MARKER, '-', '1'].length < 4294967295 + 1 ∧
    (∃ out, RunlengthDecode ['a', MARKER, 'f', 'f', MARKER, 'f', 'f'] = (.returned true, out) ∧
      out.length = 511 ∧ 64 * ['a', MARKER, 'f', 'f', MARKER, 'f', 'f'].length < 511) := by
  have h := RunlengthDecode_single_run 'a' '-' '1' (by decide) (by decide)
    (by rw [repeatCount_minus_one]; decide)
  rw [repeatCount_minus_one] at h
  have hff : repeatCount 'f' 'f' = 255 := by decide
  have h2 := RunlengthDecode_double_run 'a' 'f' 'f' 'f' 'f' (by decide) (by decide)
    (by rw [hff]; decide) (by rw [hff]; decide)
  refine ⟨repeatCount_minus_one, h, replicate_cons_length 4294967295 'a', by decide,
    _, h2, ?_, by decide⟩
  rw [c_str_single 'f' (by decide), appendTimes_length, appendTimes_length, hff]
  rfl

theorem stateAfter_none_of_le (encoded : List Char) (k m : Nat)
    (h : stateAfter encoded k = none) (hkm : k ≤ m) : stateAfter encoded m = none := by
  induction m with
  | zero =>
    have : k = 0 := by omega
    subst this
    exact h
  | succ m ih =>
    by_cases hk : k = m + 1
    · subst hk
      exact h
    · rw [stateAfter, ih (by omega)]

/-- Witness of C17: in `a*03` no marker is followed by a minus sign, the call
returns true, and the 4 characters of the output are at most 85 times the 4
characters of the input. -/
theorem RunlengthDecode_count_bound_witness :
    RunlengthDecode ['a', MARKER, '0', '3'] = (.returned true, ['a', 'a', 'a', 'a']) ∧
    ['a', 'a', 'a', 'a'].length ≤ 85 * ['a', MARKER, '0', '3'].length := by
  have hdec : RunlengthDecode ['a', MARKER, '0', '3'] = (.returned true, ['a', 'a', 'a', 'a']) :=
    RunlengthDecode_of_finished _ 2 ⟨4, ['a', 'a', 'a', 'a']⟩ (by decide) (by decide)
  refine ⟨hdec, (RunlengthDecode_count_bound ['a', MARKER, '0', '3']).2 ?_ _ hdec⟩
  intro k st hst hm
  have h0 : stateAfter ['a', MARKER, '0', '3'] 0 = some ⟨0, []⟩ := rfl
  have h1 : stateAfter ['a', MARKER, '0', '3'] 1 = some ⟨1, ['a']⟩ := by decide
  have h2 : stateAfter ['a', MARKER, '0', '3'] 2 = some ⟨4, ['a', 'a', 'a', 'a']⟩ := by decide
  have h3 : stateAfter ['a', MARKER, '0', '3'] 3 = none := by decide
  by_cases hk : 3 ≤ k
  · rw [stateAfter_none_of_le _ 3 k h3 hk] at hst
    cases hst
  · have hk3 : k < 3 := by omega
    interval_cases k
    · rw [h0] at hst
      cases hst
      revert hm
      decide
    · rw [h1] at hst
      cases hst
      decide
    · rw [h2] at hst
      cases hst
      revert hm
      decide

/-! ## The condition register read back from its fields -/

theorem hexValue_toHexString_small : ∀ n < 16, hexValue (toHexString n) = n := by
  decide

theorem slotValue_lt (text : List Char) : slotValue text < 2 ^ 32 := by
  unfold slotValue toUnsignedInt
  exact Nat.mod_lt _ (by decide)

theorem group_lt (v N : Nat) : (v >>> (4 * N)) &&& 0xF < 16 := by
  rw [show (0xF : Nat) = 2 ^ 4 - 1 from rfl, Nat.and_pow_two_sub_one_eq_mod]
  exact Nat.mod_lt _ (by decide)

theorem groups_sum (v : Nat) (hv : v < 2 ^ 32) :
    ((List.range 8).map (fun N => ((v >>> (4 * N)) &&& 0xF) * 16 ^ N)).sum = v := by
  have e : ∀ N, (v >>> (4 * N)) &&& 0xF = v / 16 ^ N % 16 := by
    intro N
    rw [Nat.shiftRight_eq_div_pow, show (0xF : Nat) = 2 ^ 4 - 1 from rfl,
      Nat.and_pow_two_sub_one_eq_mod, Nat.pow_mul]
  simp only [e]
  simp only [List.range, List.range.loop, List.map_cons, List.map_nil, List.sum_cons,
    List.sum_nil]
  norm_num
  omega

theorem group_from_flags (v N : Nat) :
    (v >>> (4 * N)) &&& 0xF =
      v / 2 ^ (4 * N + 0) % 2 + 2 * (v / 2 ^ (4 * N + 1) % 2) +
        4 * (v / 2 ^ (4 * N + 2) % 2) + 8 * (v / 2 ^ (4 * N + 3) % 2) := by
  rw [Nat.shiftRight_eq_div_pow, show (0xF : Nat) = 2 ^ 4 - 1 from rfl,
    Nat.and_pow_two_sub_one_eq_mod]
  simp only [Nat.pow_add, ← Nat.div_div_eq_div_mul]
  generalize v / 2 ^ (4 * N) = w
  norm_num
  omega

/-- C21: on a text of at least 488 characters, let `v` be the integer read
from the condition register slot.  The eight values pushed for `cr0` to `cr7`
denote numbers `g N` with `v = Σ g N * 16 ^ N`, the four flags of each group
denote numbers `f N 0` (LT), `f N 1` (GT), `f N 2` (EQ), `f N 3` (SO) with
`g N = f N 0 + 2 * f N 1 + 4 * f N 2 + 8 * f N 3`, and so `v` is the sum of
the flag combinations weighted by `16 ^ N`. -/
theorem parseRegistersString_cr_lossless (regString : List Char)
    (hlen : 488 ≤ regString.length) :
    ∃ g : Nat → Nat, ∃ f : Nat → Nat → Nat,
      (∀ N, N < 8 →
        numberOf (crGroupName N) (parseRegistersString [] regString).2 = some (g N)) ∧
      (∀ N, N < 8 → ∀ k, k < 4 →
        numberOf (crGroupName N ++ crFlagSuffix k) (parseRegistersString [] regString).2 =
          some (f N k)) ∧
      slotValue (sliceAt regString (35 * 8) 8) =
        ((List.range 8).map (fun N => g N * 16 ^ N)).sum ∧
      (∀ N, N < 8 → g N = f N 0 + 2 * f N 1 + 4 * f N 2 + 8 * f N 3) ∧
      slotValue (sliceAt regString (35 * 8) 8) =
        ((List.range 8).map
          (fun N => (f N 0 + 2 * f N 1 + 4 * f N 2 + 8 * f N 3) * 16 ^ N)).sum := by
  have hsum := groups_sum (slotValue (sliceAt regString (35 * 8) 8)) (slotValue_lt _)
  refine ⟨fun N => (slotValue (sliceAt regString (35 * 8) 8) >>> (4 * N)) &&& 0xF,
    fun N k => slotValue (sliceAt regString (35 * 8) 8) / 2 ^ (4 * N + k) % 2,
    ?_, ?_, hsum.symm, fun N _ => group_from_flags _ N, ?_⟩
  · intro N hN
    unfold numberOf
    rw [valueOf_parsed_cr regString hlen _ (crGroupName_mem N hN), crFields_group _ N hN,
      Option.map_some', hexValue_toHexString_small _ (group_lt _ N)]
  · intro N hN k hk
    unfold numberOf
    rw [valueOf_parsed_cr regString hlen _ (crFlagName_mem N hN k hk),
      crFields_flag _ N k hN hk, group_flag_bit _ N k hk, Option.map_some',
      hexValue_toHexString_small _
        (Nat.lt_trans (Nat.mod_lt _ (by decide)) (by decide))]
  · have e : (fun N => (slotValue (sliceAt regString (35 * 8) 8) / 2 ^ (4 * N + 0) % 2 +
          2 * (slotValue (sliceAt regString (35 * 8) 8) / 2 ^ (4 * N + 1) % 2) +
          4 * (slotValue (sliceAt regString (35 * 8) 8) / 2 ^ (4 * N + 2) % 2) +
          8 * (slotValue (sliceAt regString (35 * 8) 8) / 2 ^ (4 * N + 3) % 2)) * 16 ^ N) =
        (fun N => ((slotValue (sliceAt regString (35 * 8) 8) >>> (4 * N)) &&& 0xF) * 16 ^ N) := by
      funext N
      rw [← group_from_flags]
    rw [e]
    exact hsum.symm

set_option maxRecDepth 1000000 in
/-- Witness of C21: with `00000008` in the condition register slot the
integer read is 8, group 0 denotes 8, its flag SO denotes 1 and its flag LT
denotes 0. -/
theorem parseRegistersString_cr_lossless_witness :
    488 ≤ crDump.length ∧
    slotValue (sliceAt crDump (35 * 8) 8) = 8 ∧
    (∃ g : Nat → Nat, ∃ f : Nat → Nat → Nat,
      (∀ N, N < 8 → numberOf (crGroupName N) (parseRegistersString [] crDump).2 = some (g N)) ∧
      (∀ N, N < 8 → ∀ k, k < 4 →
        numberOf (crGroupName N ++ crFlagSuffix k) (parseRegistersString [] crDump).2 =
          some (f N k)) ∧
      slotValue (sliceAt crDump (35 * 8) 8) =
        ((List.range 8).map (fun N => g N * 16 ^ N)).sum ∧
      (∀ N, N < 8 → g N = f N 0 + 2 * f N 1 + 4 * f N 2 + 8 * f N 3) ∧
      slotValue (sliceAt crDump (35 * 8) 8) =
        ((List.range 8).map
          (fun N => (f N 0 + 2 * f N 1 + 4 * f N 2 + 8 * f N 3) * 16 ^ N)).sum) :=
  ⟨by decide, by decide, parseRegistersString_cr_lossless crDump (by decide)⟩

end Cisco2600
